import Mathlib

/-!
Verification of the AtlasUtilities repository: the rectangular equilateral-mesh
generator (`AtlasMeshRect` with its helper `TriangleInBB` in
src/GenerateRectAtlasMesh.h) and the NetCDF mesh importers
(`AtlasMeshFromNetCDFMinimal` / `AtlasMeshFromNetCDFComplete` in
src/utils/AtlasFromNetcdf.cpp).

The C++ code computes with `double`; here the coordinate arithmetic is embedded
exactly, over the field ℚ(√3) in which every number produced by the generator
lives.  Numbers are represented by the computable type `QS3` below (a pair of
unnormalized integer fractions `a + b·√3`), and every representation is related
to its real value by `QS3.toReal`, through which all order/field reasoning is
carried out.  This keeps every definition kernel-executable, so concrete runs
of the embedded program can be checked by `decide`.
-/

set_option maxRecDepth 16000

set_option maxHeartbeats 1600000

namespace AtlasVerif

/-- Exact fraction: an integer numerator over a positive integer denominator,
not kept in lowest terms (so all operations are plain integer arithmetic and
reduce inside the kernel). -/
structure Q2 where
  num : ℤ
  den : ℤ
  dpos : 0 < den

/-- Embed an integer. -/
def Q2.ofInt (n : ℤ) : Q2 := ⟨n, 1, Int.one_pos⟩

/-- Fraction n/d for a positive literal denominator. -/
def Q2.frac (n d : ℤ) (h : 0 < d) : Q2 := ⟨n, d, h⟩

def Q2.add (p q : Q2) : Q2 :=
  ⟨p.num * q.den + q.num * p.den, p.den * q.den, Int.mul_pos p.dpos q.dpos⟩

def Q2.sub (p q : Q2) : Q2 :=
  ⟨p.num * q.den - q.num * p.den, p.den * q.den, Int.mul_pos p.dpos q.dpos⟩

def Q2.mul (p q : Q2) : Q2 :=
  ⟨p.num * q.num, p.den * q.den, Int.mul_pos p.dpos q.dpos⟩

def Q2.neg (p : Q2) : Q2 := ⟨-p.num, p.den, p.dpos⟩

/-- Reciprocal; the reciprocal of a zero-valued fraction is 0 (the junk value
is never hit on the paths the source executes with nonzero divisors). -/
def Q2.inv (p : Q2) : Q2 :=
  if h : 0 < p.num then ⟨p.den, p.num, h⟩
  else if h2 : p.num < 0 then ⟨-p.den, -p.num, by omega⟩
  else Q2.ofInt 0

def Q2.div (p q : Q2) : Q2 := p.mul q.inv

/-- Real value of a fraction. -/
noncomputable def Q2.val (p : Q2) : ℝ := (p.num : ℝ) / (p.den : ℝ)

def Q2.isPos (p : Q2) : Bool := decide (0 < p.num)

def Q2.isNonneg (p : Q2) : Bool := decide (0 ≤ p.num)

theorem Q2.den_ne (p : Q2) : ((p.den : ℝ)) ≠ 0 := by
  exact_mod_cast (ne_of_gt p.dpos)

theorem Q2.den_pos_real (p : Q2) : (0:ℝ) < (p.den : ℝ) := by exact_mod_cast p.dpos

theorem Q2.val_ofInt (n : ℤ) : (Q2.ofInt n).val = (n : ℝ) := by
  simp [Q2.ofInt, Q2.val]

theorem Q2.val_frac (n d : ℤ) (h : 0 < d) : (Q2.frac n d h).val = (n : ℝ) / (d : ℝ) := rfl

theorem Q2.val_add (p q : Q2) : (p.add q).val = p.val + q.val := by
  unfold Q2.add Q2.val
  have hp := p.den_ne
  have hq := q.den_ne
  push_cast
  field_simp

theorem Q2.val_sub (p q : Q2) : (p.sub q).val = p.val - q.val := by
  unfold Q2.sub Q2.val
  have hp := p.den_ne
  have hq := q.den_ne
  push_cast
  field_simp
  ring

theorem Q2.val_mul (p q : Q2) : (p.mul q).val = p.val * q.val := by
  unfold Q2.mul Q2.val
  have hp := p.den_ne
  have hq := q.den_ne
  push_cast
  field_simp

theorem Q2.val_neg (p : Q2) : (p.neg).val = -p.val := by
  unfold Q2.neg Q2.val
  push_cast
  ring

theorem Q2.val_inv (p : Q2) : (p.inv).val = (p.val)⁻¹ := by
  unfold Q2.inv Q2.val
  rcases lt_trichotomy p.num 0 with h | h | h
  · rw [dif_neg (by omega), dif_pos h]
    have hn : ((p.num : ℝ)) ≠ 0 := by exact_mod_cast (ne_of_lt h)
    have hd := p.den_ne
    push_cast
    field_simp
  · rw [dif_neg (by omega), dif_neg (by omega)]
    simp [Q2.ofInt, h]
  · rw [dif_pos h]
    have hn : ((p.num : ℝ)) ≠ 0 := by exact_mod_cast (ne_of_gt h)
    have hd := p.den_ne
    field_simp

theorem Q2.val_div (p q : Q2) : (p.div q).val = p.val / q.val := by
  unfold Q2.div
  rw [Q2.val_mul, Q2.val_inv, div_eq_mul_inv]

theorem Q2.isPos_iff (p : Q2) : p.isPos = true ↔ 0 < p.val := by
  unfold Q2.isPos Q2.val
  rw [decide_eq_true_iff]
  constructor
  · intro h
    exact div_pos (by exact_mod_cast h) p.den_pos_real
  · intro h
    by_contra hc
    push_neg at hc
    have : (p.num : ℝ) ≤ 0 := by exact_mod_cast hc
    have : (p.num : ℝ) / (p.den : ℝ) ≤ 0 :=
      div_nonpos_of_nonpos_of_nonneg this (le_of_lt p.den_pos_real)
    linarith

theorem Q2.isNonneg_iff (p : Q2) : p.isNonneg = true ↔ 0 ≤ p.val := by
  unfold Q2.isNonneg Q2.val
  rw [decide_eq_true_iff]
  constructor
  · intro h
    exact div_nonneg (by exact_mod_cast h) (le_of_lt p.den_pos_real)
  · intro h
    by_contra hc
    push_neg at hc
    have h1 : (p.num : ℝ) < 0 := by exact_mod_cast hc
    have : (p.num : ℝ) / (p.den : ℝ) < 0 := div_neg_of_neg_of_pos h1 p.den_pos_real
    linarith

theorem Q2.val_eq_zero_iff (p : Q2) : p.val = 0 ↔ p.num = 0 := by
  unfold Q2.val
  rw [div_eq_zero_iff]
  constructor
  · rintro (h | h)
    · exact_mod_cast h
    · exact absurd h p.den_ne
  · intro h
    left
    exact_mod_cast h

/-- Number of the form a + b·√3 with exact fraction components; the carrier for
all coordinate arithmetic of the embedded generator. -/
structure QS3 where
  ra : Q2
  rb : Q2

def QS3.ofQ2 (p : Q2) : QS3 := ⟨p, Q2.ofInt 0⟩

def QS3.ofInt (n : ℤ) : QS3 := ⟨Q2.ofInt n, Q2.ofInt 0⟩

/-- The number √3 itself. -/
def QS3.sqrt3 : QS3 := ⟨Q2.ofInt 0, Q2.ofInt 1⟩

def QS3.add (x y : QS3) : QS3 := ⟨x.ra.add y.ra, x.rb.add y.rb⟩

def QS3.sub (x y : QS3) : QS3 := ⟨x.ra.sub y.ra, x.rb.sub y.rb⟩

def QS3.neg (x : QS3) : QS3 := ⟨x.ra.neg, x.rb.neg⟩

def QS3.mul (x y : QS3) : QS3 :=
  ⟨(x.ra.mul y.ra).add ((Q2.ofInt 3).mul (x.rb.mul y.rb)),
   (x.ra.mul y.rb).add (x.rb.mul y.ra)⟩

/-- Reciprocal via the conjugate: (a+b√3)⁻¹ = (a−b√3)/(a²−3b²). -/
def QS3.inv (x : QS3) : QS3 :=
  let d := (x.ra.mul x.ra).sub ((Q2.ofInt 3).mul (x.rb.mul x.rb))
  ⟨x.ra.div d, (x.rb.neg).div d⟩

def QS3.div (x y : QS3) : QS3 := x.mul y.inv

/-- Real value. -/
noncomputable def QS3.toReal (x : QS3) : ℝ := x.ra.val + x.rb.val * Real.sqrt 3

theorem sqrt3_pos : (0:ℝ) < Real.sqrt 3 := Real.sqrt_pos.mpr (by norm_num)

theorem sqrt3_sq : Real.sqrt 3 * Real.sqrt 3 = 3 := Real.mul_self_sqrt (by norm_num)

/-- No rational squares to 3 (√3 is irrational). -/
theorem no_rat_sq_three (q : ℚ) : q ^ 2 ≠ 3 := by
  intro h
  have h3 : Irrational (Real.sqrt 3) := (Nat.prime_three).irrational_sqrt
  have hr : ((q:ℝ)) ^ 2 = 3 := by exact_mod_cast congrArg (fun z : ℚ => (z : ℝ)) h
  have habs : Real.sqrt 3 = |(q:ℝ)| := by
    rw [show (3:ℝ) = (q:ℝ)^2 from hr.symm]
    exact Real.sqrt_sq_eq_abs q
  rcases abs_cases (q:ℝ) with ⟨he, _⟩ | ⟨he, _⟩
  · exact h3 ⟨q, by rw [habs, he]⟩
  · exact h3 ⟨-q, by rw [habs, he]; push_cast; ring⟩

/-- No real number which is a ratio of integer casts squares to 3. -/
theorem no_intcast_ratio_sq_three (a b : ℤ) (hb : (b:ℝ) ≠ 0)
    (h : ((a:ℝ) / (b:ℝ)) ^ 2 = 3) : False := by
  have hbq : ((b:ℚ)) ≠ 0 := by exact_mod_cast (by exact_mod_cast hb : (b:ℝ) ≠ 0)
  apply no_rat_sq_three ((a:ℚ) / (b:ℚ))
  have : (((a:ℚ) / (b:ℚ) : ℚ) : ℝ) = (a:ℝ) / (b:ℝ) := by push_cast; ring
  have h2 : ((((a:ℚ) / (b:ℚ)) ^ 2 : ℚ) : ℝ) = ((3:ℚ):ℝ) := by
    push_cast
    rw [div_pow]
    rw [div_pow] at h
    exact h
  exact_mod_cast h2

theorem QS3.toReal_ofInt (n : ℤ) : (QS3.ofInt n).toReal = (n : ℝ) := by
  simp [QS3.ofInt, QS3.toReal, Q2.val_ofInt]

theorem QS3.toReal_ofQ2 (p : Q2) : (QS3.ofQ2 p).toReal = p.val := by
  simp [QS3.ofQ2, QS3.toReal, Q2.val_ofInt]

theorem QS3.toReal_sqrt3 : QS3.sqrt3.toReal = Real.sqrt 3 := by
  simp [QS3.sqrt3, QS3.toReal, Q2.val_ofInt]

theorem QS3.toReal_add (x y : QS3) : (x.add y).toReal = x.toReal + y.toReal := by
  unfold QS3.add QS3.toReal
  simp only [Q2.val_add]
  ring

theorem QS3.toReal_sub (x y : QS3) : (x.sub y).toReal = x.toReal - y.toReal := by
  unfold QS3.sub QS3.toReal
  simp only [Q2.val_sub]
  ring

theorem QS3.toReal_neg (x : QS3) : (x.neg).toReal = -x.toReal := by
  unfold QS3.neg QS3.toReal
  simp only [Q2.val_neg]
  ring

theorem QS3.toReal_mul (x y : QS3) : (x.mul y).toReal = x.toReal * y.toReal := by
  unfold QS3.mul QS3.toReal
  simp only [Q2.val_add, Q2.val_mul, Q2.val_ofInt]
  push_cast
  linear_combination (-(x.rb.val * y.rb.val)) * sqrt3_sq

/-- A quotient of two of our fraction values never squares to 3. -/
theorem q2_ratio_sq_ne_three (p q : Q2) (hq : q.val ≠ 0) : (p.val / q.val) ^ 2 ≠ 3 := by
  intro h
  have hqnum : (q.num : ℝ) ≠ 0 := by
    intro h0
    apply hq
    unfold Q2.val
    rw [h0, zero_div]
  have hden : ((p.den * q.num : ℤ) : ℝ) ≠ 0 := by
    push_cast
    exact mul_ne_zero p.den_ne hqnum
  apply no_intcast_ratio_sq_three (p.num * q.den) (p.den * q.num) hden
  rw [← h]
  congr 1
  unfold Q2.val
  push_cast
  field_simp

theorem QS3.toReal_eq_zero_iff (x : QS3) :
    x.toReal = 0 ↔ x.ra.val = 0 ∧ x.rb.val = 0 := by
  constructor
  · intro h
    by_cases hb : x.rb.val = 0
    · refine ⟨?_, hb⟩
      unfold QS3.toReal at h
      rw [hb] at h
      linarith
    · exfalso
      apply q2_ratio_sq_ne_three (x.ra.neg) x.rb hb
      rw [Q2.val_neg]
      have hsv : Real.sqrt 3 = -x.ra.val / x.rb.val := by
        unfold QS3.toReal at h
        field_simp
        linarith
      rw [← hsv, sq]
      exact sqrt3_sq
  · rintro ⟨h1, h2⟩
    unfold QS3.toReal
    rw [h1, h2]
    ring

theorem QS3.toReal_inj (x y : QS3) (h : x.toReal = y.toReal) :
    x.ra.val = y.ra.val ∧ x.rb.val = y.rb.val := by
  have h0 : (x.sub y).toReal = 0 := by
    rw [QS3.toReal_sub, h]
    ring
  have h2 := (QS3.toReal_eq_zero_iff (x.sub y)).mp h0
  unfold QS3.sub at h2
  rw [Q2.val_sub, Q2.val_sub] at h2
  constructor <;> [linarith [h2.1]; linarith [h2.2]]

theorem QS3.toReal_inv (x : QS3) : (x.inv).toReal = (x.toReal)⁻¹ := by
  unfold QS3.inv QS3.toReal
  simp only [Q2.val_div, Q2.val_sub, Q2.val_mul, Q2.val_ofInt, Q2.val_neg]
  by_cases h0 : x.ra.val + x.rb.val * Real.sqrt 3 = 0
  · have hz := (QS3.toReal_eq_zero_iff x).mp (by unfold QS3.toReal; exact h0)
    rw [hz.1, hz.2]
    norm_num
  · have hd : x.ra.val * x.ra.val - (3:ℝ) * (x.rb.val * x.rb.val) ≠ 0 := by
      intro hd0
      by_cases hb : x.rb.val = 0
      · rw [hb] at hd0
        have ha : x.ra.val = 0 := by nlinarith
        exact h0 (by rw [ha, hb]; ring)
      · apply q2_ratio_sq_ne_three x.ra x.rb hb
        field_simp
        linarith
    rw [eq_comm, inv_eq_iff_eq_inv, eq_comm, inv_eq_of_mul_eq_one_right]
    field_simp
    nlinarith [sqrt3_sq]

theorem QS3.toReal_div (x y : QS3) : (x.div y).toReal = x.toReal / y.toReal := by
  unfold QS3.div
  rw [QS3.toReal_mul, QS3.toReal_inv, div_eq_mul_inv]

/-- Decidable test for positivity of a + b√3, by sign analysis of a and b. -/
def QS3.isPos (x : QS3) : Bool :=
  if x.ra.isNonneg then
    (if x.rb.isNonneg then x.ra.isPos || x.rb.isPos
     else Q2.isPos ((x.ra.mul x.ra).sub ((Q2.ofInt 3).mul (x.rb.mul x.rb))))
  else
    (if x.rb.isNonneg then Q2.isPos (((Q2.ofInt 3).mul (x.rb.mul x.rb)).sub (x.ra.mul x.ra))
     else false)

theorem QS3.isPos_toReal_iff (x : QS3) : x.isPos = true ↔ 0 < x.toReal := by
  have hs := sqrt3_sq
  have hsp := sqrt3_pos
  unfold QS3.isPos QS3.toReal
  by_cases ha : x.ra.isNonneg = true
  · rw [if_pos ha]
    rw [Q2.isNonneg_iff] at ha
    by_cases hb : x.rb.isNonneg = true
    · rw [if_pos hb, Bool.or_eq_true, Q2.isPos_iff, Q2.isPos_iff]
      rw [Q2.isNonneg_iff] at hb
      constructor
      · rintro (h | h)
        · nlinarith
        · nlinarith
      · intro h
        by_contra hc
        push_neg at hc
        have h1 : x.ra.val = 0 := le_antisymm hc.1 ha
        have h2 : x.rb.val = 0 := le_antisymm hc.2 hb
        rw [h1, h2] at h
        simp at h
    · rw [if_neg hb, Q2.isPos_iff, Q2.val_sub, Q2.val_mul, Q2.val_mul, Q2.val_mul,
        Q2.val_ofInt]
      rw [Q2.isNonneg_iff] at hb
      push_neg at hb
      push_cast
      constructor
      · intro h
        have hx : (0:ℝ) < (-x.rb.val) * Real.sqrt 3 := mul_pos (by linarith) hsp
        nlinarith
      · intro h
        have h1 : (0:ℝ) < x.ra.val - x.rb.val * Real.sqrt 3 := by
          have hx : (0:ℝ) < (-x.rb.val) * Real.sqrt 3 := mul_pos (by linarith) hsp
          nlinarith
        nlinarith [mul_pos h1 h]
  · rw [if_neg ha]
    rw [Q2.isNonneg_iff] at ha
    push_neg at ha
    by_cases hb : x.rb.isNonneg = true
    · rw [if_pos hb, Q2.isPos_iff, Q2.val_sub, Q2.val_mul, Q2.val_mul, Q2.val_mul,
        Q2.val_ofInt]
      rw [Q2.isNonneg_iff] at hb
      push_cast
      constructor
      · intro h
        have hx : (0:ℝ) ≤ x.rb.val * Real.sqrt 3 := mul_nonneg hb (le_of_lt hsp)
        nlinarith
      · intro h
        nlinarith
    · rw [if_neg hb]
      rw [Q2.isNonneg_iff] at hb
      push_neg at hb
      constructor
      · intro h
        simp at h
      · intro h
        exfalso
        have hx : x.rb.val * Real.sqrt 3 < 0 :=
          mul_neg_of_neg_of_pos hb hsp
        nlinarith

def QS3.blt (x y : QS3) : Bool := (y.sub x).isPos

def QS3.ble (x y : QS3) : Bool := !(QS3.blt y x)

theorem QS3.blt_iff (x y : QS3) : x.blt y = true ↔ x.toReal < y.toReal := by
  unfold QS3.blt
  rw [QS3.isPos_toReal_iff, QS3.toReal_sub]
  constructor <;> intro h <;> linarith

theorem QS3.ble_iff (x y : QS3) : x.ble y = true ↔ x.toReal ≤ y.toReal := by
  unfold QS3.ble
  rw [Bool.not_eq_true']
  constructor
  · intro h
    by_contra hc
    push_neg at hc
    have hb : QS3.blt y x = true := (QS3.blt_iff y x).mpr hc
    rw [hb] at h
    simp at h
  · intro h
    cases hb : QS3.blt y x
    · rfl
    · rw [QS3.blt_iff] at hb
      linarith

def QS3.fmin (x y : QS3) : QS3 := if x.ble y then x else y

def QS3.fmax (x y : QS3) : QS3 := if y.ble x then x else y

theorem QS3.toReal_fmin (x y : QS3) : (x.fmin y).toReal = min x.toReal y.toReal := by
  unfold QS3.fmin
  by_cases h : x.ble y = true
  · rw [if_pos h, min_eq_left ((QS3.ble_iff x y).mp h)]
  · rw [if_neg h, min_eq_right]
    by_contra hc
    push_neg at hc
    exact h ((QS3.ble_iff x y).mpr (le_of_lt hc))

theorem QS3.toReal_fmax (x y : QS3) : (x.fmax y).toReal = max x.toReal y.toReal := by
  unfold QS3.fmax
  by_cases h : y.ble x = true
  · rw [if_pos h, max_eq_left ((QS3.ble_iff y x).mp h)]
  · rw [if_neg h, max_eq_right]
    by_contra hc
    push_neg at hc
    exact h ((QS3.ble_iff y x).mpr (le_of_lt hc))

/-- Decidable value equality on QS3. -/
def QS3.beqv (x y : QS3) : Bool := ((x.sub y).ra.num == 0) && ((x.sub y).rb.num == 0)

theorem QS3.beqv_iff (x y : QS3) : x.beqv y = true ↔ x.toReal = y.toReal := by
  unfold QS3.beqv
  rw [Bool.and_eq_true, beq_iff_eq, beq_iff_eq, ← Q2.val_eq_zero_iff, ← Q2.val_eq_zero_iff]
  have hra : (x.sub y).ra = x.ra.sub y.ra := rfl
  have hrb : (x.sub y).rb = x.rb.sub y.rb := rfl
  rw [hra, hrb, Q2.val_sub, Q2.val_sub]
  constructor
  · rintro ⟨h1, h2⟩
    unfold QS3.toReal
    have e1 : x.ra.val = y.ra.val := by linarith
    have e2 : x.rb.val = y.rb.val := by linarith
    rw [e1, e2]
  · intro h
    have := QS3.toReal_inj x y h
    constructor <;> linarith [this.1, this.2]

/-- Exact integer value of DBL_MAX = 2^1024 - 2^971, the C++
std::numeric_limits of double max() used as a sentinel by the source. -/
def dblMaxInt : ℤ := 179769313486231570814527423731704356798070567525844996598917476803157260780028538760589558632766878171540458953514382464234321326889464182768467546703537516986049910576551282076245490090389328944075868508455133942304583236903222948165808559332123348274797826204144723168738177180919299881250404026184124858368

def dblMax : QS3 := ⟨⟨dblMaxInt, 1, Int.one_pos⟩, Q2.ofInt 0⟩

theorem toReal_dblMax : dblMax.toReal = (dblMaxInt : ℝ) := by
  unfold dblMax QS3.toReal Q2.val
  simp [Q2.val_ofInt, Q2.ofInt]

theorem dblMax_big : (20000000000:ℝ) < dblMax.toReal := by
  rw [toReal_dblMax]
  have h : (20000000000:ℤ) < dblMaxInt := by decide
  exact_mod_cast h

/-- Planar point with exact coordinates (the xy view of an atlas mesh node). -/
structure Pt where
  px : QS3
  py : QS3

def Pt.zero : Pt := ⟨QS3.ofInt 0, QS3.ofInt 0⟩

/-- Mesh: nodes with xy coordinates and triangle cells given as node index
triples (the parts of atlas::Mesh that AtlasMeshRect reads and writes). -/
structure RMesh where
  nodes : List Pt
  cells : List (ℕ × ℕ × ℕ)

def qhalf : QS3 := ⟨Q2.frac 1 2 (by omega), Q2.ofInt 0⟩

def qtenth : QS3 := ⟨Q2.frac 1 10 (by omega), Q2.ofInt 0⟩

/-- Modelled from the spec: the external atlas StructuredMeshGenerator applied to
the grid LinearSpacing(0,nx,nx,false) × LinearSpacing(0,ny,ny,false).  Nodes sit
on the integer lattice positions (i,j), 0 ≤ i < nx, 0 ≤ j < ny, node index
j*nx+i; every lattice quad is split into two right triangles along its
(i,j)–(i+1,j+1) diagonal, the "strict up/down orientation" described by the
source comment for the Config("angle", -1) convention. -/
def structuredMesh (nx ny : ℕ) : RMesh where
  nodes := (List.range (nx*ny)).map (fun n =>
    ⟨QS3.ofInt ((n % nx : ℕ) : ℤ), QS3.ofInt ((n / nx : ℕ) : ℤ)⟩)
  cells := (List.range (2*(nx-1)*(ny-1))).map (fun c =>
    let q := c / 2
    let qi := q % (nx-1)
    let qj := q / (nx-1)
    if c % 2 = 0 then (qj*nx+qi, qj*nx+qi+1, (qj+1)*nx+qi+1)
    else (qj*nx+qi, (qj+1)*nx+qi+1, (qj+1)*nx+qi))

/-- The in-place node rewrite of AtlasMeshRect (x = x - 0.5*y; y = y*sqrt(3)/2). -/
def shearNode (p : Pt) : Pt :=
  ⟨p.px.sub (qhalf.mul p.py), (p.py.mul QS3.sqrt3).div (QS3.ofInt 2)⟩

/-- TriangleInBB from src/GenerateRectAtlasMesh.h: look up the cell's three
nodes and test whether any of them lies strictly inside the box. -/
def TriangleInBB (mesh : RMesh) (cellIdx : ℕ) (bblo bbhi : QS3 × QS3) : Bool :=
  let cn := mesh.cells.getD cellIdx (0, 0, 0)
  let getXY : ℕ → Pt := fun nodeIdx => mesh.nodes.getD nodeIdx Pt.zero
  let inBB : Pt → Bool := fun p =>
    bblo.1.blt p.px && bblo.2.blt p.py && p.px.blt bbhi.1 && p.py.blt bbhi.2
  inBB (getXY cn.1) || inBB (getXY cn.2.1) || inBB (getXY cn.2.2)

/-- Node ids referenced by the kept cells, in order of first reference. -/
def extractNodeIds (mesh : RMesh) (keep : List ℕ) : List ℕ :=
  ((keep.map (fun c =>
    let t := mesh.cells.getD c (0, 0, 0)
    [t.1, t.2.1, t.2.2])).flatten).dedup

/-- Modelled from the spec: the external submesh extractor
AtlasExtractSubMeshMinimal (its implementation is outside src/).  Per the
spec contract the output holds exactly the listed cells, in order, renumbered
0..k-1, and exactly the nodes referenced by those cells, renumbered 0..m-1,
with the cell-to-node connectivity rewritten to the new numbering. -/
def AtlasExtractSubMeshMinimal (mesh : RMesh) (keep : List ℕ) : RMesh where
  nodes := (extractNodeIds mesh keep).map (fun n => mesh.nodes.getD n Pt.zero)
  cells := keep.map (fun c =>
    let t := mesh.cells.getD c (0, 0, 0)
    ((extractNodeIds mesh keep).indexOf t.1,
     (extractNodeIds mesh keep).indexOf t.2.1,
     (extractNodeIds mesh keep).indexOf t.2.2))

structure BBox where
  xMin : QS3
  yMin : QS3
  xMax : QS3
  yMax : QS3

/-- The min/max scan of AtlasMeshRect: fold fmin/fmax over all nodes starting
from the ±DBL_MAX sentinels. -/
def bboxOf (m : RMesh) : BBox :=
  m.nodes.foldl
    (fun bb p => ⟨p.px.fmin bb.xMin, p.py.fmin bb.yMin, p.px.fmax bb.xMax, p.py.fmax bb.yMax⟩)
    ⟨dblMax, dblMax, dblMax.neg, dblMax.neg⟩

/-- The bounding-box normalizer of AtlasMeshRect: scan (bboxOf), re-center
(x -= xMin + lX/2, y -= yMin + lY/2), then scale both axes by 180/lY. -/
def normalizeMesh (m : RMesh) : RMesh :=
  let bb := bboxOf m
  let lX := bb.xMax.sub bb.xMin
  let lY := bb.yMax.sub bb.yMin
  let recentered : List Pt := m.nodes.map (fun p =>
    ⟨(p.px.sub bb.xMin).sub (lX.div (QS3.ofInt 2)),
     (p.py.sub bb.yMin).sub (lY.div (QS3.ofInt 2))⟩)
  let scale := (QS3.ofInt 180).div lY
  ⟨recentered.map (fun p => ⟨p.px.mul scale, p.py.mul scale⟩), m.cells⟩

def rectNx (ny : ℕ) : ℕ := 3 * ny

/-- The generated structured mesh after the equilateral shear transform. -/
def rectRawMesh (ny : ℕ) : RMesh :=
  let m := structuredMesh (rectNx ny) ny
  ⟨m.nodes.map shearNode, m.cells⟩

def rectNewHeight (ny : ℕ) : QS3 :=
  ((QS3.ofInt ((ny:ℤ) - 1)).mul QS3.sqrt3).div (QS3.ofInt 2)

def rectLength (ny : ℕ) : QS3 := (rectNewHeight ny).mul (QS3.ofInt 2)

/-- Selection box low corner (0, -DBL_MAX). -/
def rectLo (_ny : ℕ) : QS3 × QS3 := (QS3.ofInt 0, dblMax.neg)

/-- Selection box high corner (length + length/nx*0.1, DBL_MAX). -/
def rectHi (ny : ℕ) : QS3 × QS3 :=
  ((rectLength ny).add (((rectLength ny).div (QS3.ofInt ((rectNx ny : ℕ) : ℤ))).mul qtenth),
   dblMax)

/-- Indices of the cells kept by the TriangleInBB scan, in ascending order. -/
def rectKeep (ny : ℕ) : List ℕ :=
  (List.range (rectRawMesh ny).cells.length).filter
    (fun cellIdx => TriangleInBB (rectRawMesh ny) cellIdx (rectLo ny) (rectHi ny))

def rectExtracted (ny : ℕ) : RMesh :=
  AtlasExtractSubMeshMinimal (rectRawMesh ny) (rectKeep ny)

/-- AtlasMeshRect from src/GenerateRectAtlasMesh.h: generate, shear, clip,
extract, then re-center and rescale. -/
def AtlasMeshRect (ny : ℕ) : RMesh := normalizeMesh (rectExtracted ny)

/-- The divisor lY = yMax - yMin that AtlasMeshRect computes over the extracted
submesh before dividing by it. -/
def rectLY (ny : ℕ) : QS3 :=
  (bboxOf (rectExtracted ny)).yMax.sub (bboxOf (rectExtracted ny)).yMin

/-- Squared euclidean distance between two points. -/
def sqDist (p q : Pt) : QS3 :=
  ((p.px.sub q.px).mul (p.px.sub q.px)).add ((p.py.sub q.py).mul (p.py.sub q.py))

/-- NetCDF file model: named 1-D real-valued variables and named 2-D integer
variables, a 2-D variable carrying its two dimension sizes together with its
flat data exactly as the C++ reader receives them. -/
structure NcFile where
  vars1 : List (String × List ℚ)
  vars2 : List (String × (ℕ × ℕ × List ℤ))

/-- LoadField: a missing variable yields the empty vector. -/
def LoadField (f : NcFile) (name : String) : List ℚ :=
  (f.vars1.lookup name).getD []

/-- Load2DField: yields (data, dim0 size, dim1 size); a missing variable
yields the default-constructed tuple ([], 0, 0). -/
def Load2DField (f : NcFile) (name : String) : List ℤ × ℕ × ℕ :=
  match f.vars2.lookup name with
  | none => ([], 0, 0)
  | some (d0, d1, data) => (data, d0, d1)

/-- Radian-to-degree longitude conversion of NodesFromNetCDF. -/
noncomputable def radToLon (rad : ℚ) : ℝ := (rad : ℝ) / Real.pi * 180

/-- Radian-to-degree latitude conversion of NodesFromNetCDF. -/
noncomputable def radToLat (rad : ℚ) : ℝ := (rad : ℝ) / (0.5 * Real.pi) * 90

/-- Dummy partition identifier, always zero (reader does not support
partitioning). -/
def defaultPartition : ℤ := 0

/-- Edge block and neighbor tables added by the complete importer. -/
structure EdgeData where
  numEdges : ℕ
  edgeToCell : List (List ℤ)
  edgeToNode : List (List ℤ)
  nodeToCell : List (List ℤ)
  nodeToEdge : List (List ℤ)
  cellToEdge : List (List ℤ)

/-- The parts of atlas::Mesh that the importer fills in. -/
structure AMesh where
  lonlat : List (ℝ × ℝ)
  nodeGlbIdx : List ℕ
  nodeRemoteIdx : List ℕ
  nodePart : List ℤ
  nodeGhost : List Bool
  cellGlbIdx : List ℕ
  cellPart : List ℤ
  cellToNode : List (ℤ × ℤ × ℤ)
  edges : Option EdgeData

/-- NodesFromNetCDF: read vlon/vlat, check presence and consistent sizes,
convert to degrees, and set global/remote indices, partition, and ghost
flags for every node. -/
noncomputable def NodesFromNetCDF (f : NcFile) : Option AMesh :=
  let lon := LoadField f ("vlon")
  let lat := LoadField f ("vlat")
  if lon.length = 0 ∨ lat.length = 0 then none
  else if lon.length ≠ lat.length then none
  else
    let numNodes := lat.length
    some { lonlat := List.zipWith (fun lo la => (radToLon lo, radToLat la)) lon lat
           nodeGlbIdx := List.range numNodes
           nodeRemoteIdx := List.range numNodes
           nodePart := List.replicate numNodes defaultPartition
           nodeGhost := List.replicate numNodes false
           cellGlbIdx := []
           cellPart := []
           cellToNode := []
           edges := none }

/-- CellsFromNetCDF: read vertex_of_cell (1-based, column-major), require a
triangle mesh, and fill the cell-to-node connectivity, global indices and
partitions. -/
noncomputable def CellsFromNetCDF (f : NcFile) (mesh : AMesh) : Option AMesh :=
  let r := Load2DField f ("vertex_of_cell")
  let cellToVertex := r.1
  let vertexPerCell := r.2.1
  let ncells := r.2.2
  if vertexPerCell ≠ 3 then none
  else
    some { mesh with
      cellToNode := (List.range ncells).map (fun cellIdx =>
        (cellToVertex.getD (0*ncells + cellIdx) 0 - 1,
         cellToVertex.getD (1*ncells + cellIdx) 0 - 1,
         cellToVertex.getD (2*ncells + cellIdx) 0 - 1))
      cellGlbIdx := List.range ncells
      cellPart := List.replicate ncells defaultPartition }

/-- AtlasMeshFromNetCDFMinimal from src/utils/AtlasFromNetcdf.cpp. -/
noncomputable def AtlasMeshFromNetCDFMinimal (f : NcFile) : Option AMesh :=
  match NodesFromNetCDF f with
  | none => none
  | some mesh => CellsFromNetCDF f mesh

/-- Modelled from the spec: the missing-value marker that atlas connectivity
tables report at allocation time (its concrete value plays no role in any
claim below). -/
def connectivityMissingValue : ℤ := -1

/-- AllocNbhTable: pre-allocate a neighbor table filled with the
connectivity's missing-value marker. -/
def AllocNbhTable (numElements nbhPerElem : ℕ) : List (List ℤ) :=
  List.replicate numElements (List.replicate nbhPerElem connectivityMissingValue)

/-- AddNeighborList: read the named 2-D variable, require yPerXExpected
neighbors per element, and overwrite each table row elemIdx < numY with the
file's 1-based entries minus one (column-major read). -/
def AddNeighborList (f : NcFile) (nbhListName : String) (yPerXExpected : ℕ)
    (connectivity : List (List ℤ)) : Option (List (List ℤ)) :=
  let r := Load2DField f nbhListName
  let xToY := r.1
  let yPerX := r.2.1
  let numY := r.2.2
  if yPerX ≠ yPerXExpected then none
  else
    some ((List.range connectivity.length).map (fun elemIdx =>
      if elemIdx < numY then
        (List.range yPerX).map (fun innerIdx => xToY.getD (innerIdx * numY + elemIdx) 0 - 1)
      else connectivity.getD elemIdx []))

/-- AtlasMeshFromNetCDFComplete from src/utils/AtlasFromNetcdf.cpp: run the
minimal importer, require edge data (edge_index or elat), then allocate and
fill the five neighbor tables from the file. -/
noncomputable def AtlasMeshFromNetCDFComplete (f : NcFile) : Option AMesh :=
  match AtlasMeshFromNetCDFMinimal f with
  | none => none
  | some mesh =>
    let numEdgesA := (LoadField f ("edge_index")).length
    let numEdgesB := (LoadField f ("elat")).length
    if numEdgesA = 0 ∧ numEdgesB = 0 then none
    else
      let numEdges := max numEdgesA numEdgesB
      let numNodes := mesh.lonlat.length
      let numCells := mesh.cellToNode.length
      match AddNeighborList f ("adjacent_cell_of_edge") 2 (AllocNbhTable numEdges 2) with
      | none => none
      | some edgeToCell =>
      match AddNeighborList f ("edge_vertices") 2 (AllocNbhTable numEdges 2) with
      | none => none
      | some edgeToNode =>
      match AddNeighborList f ("cells_of_vertex") 6 (AllocNbhTable numNodes 6) with
      | none => none
      | some nodeToCell =>
      match AddNeighborList f ("edges_of_vertex") 6 (AllocNbhTable numNodes 6) with
      | none => none
      | some nodeToEdge =>
      match AddNeighborList f ("edge_of_cell") 3 (AllocNbhTable numCells 3) with
      | none => none
      | some cellToEdge =>
        some { mesh with
          edges := some ⟨numEdges, edgeToCell, edgeToNode, nodeToCell, nodeToEdge, cellToEdge⟩ }

/-! Characterization of the sentinel-initialized fmin/fmax folds. -/

theorem fold_fmin_le_init (l : List Pt) (f : Pt → QS3) (init : QS3) :
    (l.foldl (fun acc q => (f q).fmin acc) init).toReal ≤ init.toReal := by
  induction l generalizing init with
  | nil => simp
  | cons q t ih =>
    simp only [List.foldl_cons]
    calc (t.foldl (fun acc q => (f q).fmin acc) ((f q).fmin init)).toReal
        ≤ ((f q).fmin init).toReal := ih _
    _ ≤ init.toReal := by rw [QS3.toReal_fmin]; exact min_le_right _ _

theorem fold_fmin_le_mem (l : List Pt) (f : Pt → QS3) (init : QS3) (p : Pt) (hp : p ∈ l) :
    (l.foldl (fun acc q => (f q).fmin acc) init).toReal ≤ (f p).toReal := by
  induction l generalizing init with
  | nil => cases hp
  | cons q t ih =>
    simp only [List.foldl_cons]
    rcases List.mem_cons.mp hp with h | h
    · subst h
      calc (t.foldl (fun acc r => (f r).fmin acc) ((f p).fmin init)).toReal
          ≤ ((f p).fmin init).toReal := fold_fmin_le_init t f _
      _ ≤ (f p).toReal := by rw [QS3.toReal_fmin]; exact min_le_left _ _
    · exact ih _ h

theorem fold_fmin_mem_or_init (l : List Pt) (f : Pt → QS3) (init : QS3) :
    (l.foldl (fun acc q => (f q).fmin acc) init).toReal = init.toReal ∨
    ∃ p ∈ l, (l.foldl (fun acc q => (f q).fmin acc) init).toReal = (f p).toReal := by
  induction l generalizing init with
  | nil => exact Or.inl rfl
  | cons q t ih =>
    simp only [List.foldl_cons]
    rcases ih ((f q).fmin init) with h | ⟨p, hp, h⟩
    · rw [h, QS3.toReal_fmin]
      rcases min_cases (f q).toReal init.toReal with ⟨he, _⟩ | ⟨he, _⟩
      · exact Or.inr ⟨q, List.mem_cons_self q t, he⟩
      · exact Or.inl he
    · exact Or.inr ⟨p, List.mem_cons_of_mem q hp, h⟩

theorem fold_fmin_eq (l : List Pt) (f : Pt → QS3) (init : QS3) (p0 : Pt) (hp0 : p0 ∈ l)
    (hlb : ∀ p ∈ l, (f p0).toReal ≤ (f p).toReal)
    (hinit : (f p0).toReal ≤ init.toReal) :
    (l.foldl (fun acc q => (f q).fmin acc) init).toReal = (f p0).toReal := by
  have h1 := fold_fmin_le_mem l f init p0 hp0
  rcases fold_fmin_mem_or_init l f init with h | ⟨p, hp, h⟩
  · rw [h] at h1 ⊢
    linarith
  · rw [h] at h1 ⊢
    linarith [hlb p hp]

theorem fold_fmin_argmin (l : List Pt) (f : Pt → QS3) (init : QS3) (p1 : Pt) (hp1 : p1 ∈ l)
    (hlt : (f p1).toReal < init.toReal) :
    ∃ p0 ∈ l, (l.foldl (fun acc q => (f q).fmin acc) init).toReal = (f p0).toReal := by
  rcases fold_fmin_mem_or_init l f init with h | hex
  · exfalso
    have := fold_fmin_le_mem l f init p1 hp1
    linarith [h]
  · exact hex

theorem fold_fmax_ge_init (l : List Pt) (f : Pt → QS3) (init : QS3) :
    init.toReal ≤ (l.foldl (fun acc q => (f q).fmax acc) init).toReal := by
  induction l generalizing init with
  | nil => simp
  | cons q t ih =>
    simp only [List.foldl_cons]
    calc init.toReal ≤ ((f q).fmax init).toReal := by
          rw [QS3.toReal_fmax]; exact le_max_right _ _
    _ ≤ (t.foldl (fun acc q => (f q).fmax acc) ((f q).fmax init)).toReal := ih _

theorem fold_fmax_ge_mem (l : List Pt) (f : Pt → QS3) (init : QS3) (p : Pt) (hp : p ∈ l) :
    (f p).toReal ≤ (l.foldl (fun acc q => (f q).fmax acc) init).toReal := by
  induction l generalizing init with
  | nil => cases hp
  | cons q t ih =>
    simp only [List.foldl_cons]
    rcases List.mem_cons.mp hp with h | h
    · subst h
      calc (f p).toReal ≤ ((f p).fmax init).toReal := by
            rw [QS3.toReal_fmax]; exact le_max_left _ _
      _ ≤ (t.foldl (fun acc r => (f r).fmax acc) ((f p).fmax init)).toReal :=
            fold_fmax_ge_init t f _
    · exact ih _ h

theorem fold_fmax_mem_or_init (l : List Pt) (f : Pt → QS3) (init : QS3) :
    (l.foldl (fun acc q => (f q).fmax acc) init).toReal = init.toReal ∨
    ∃ p ∈ l, (l.foldl (fun acc q => (f q).fmax acc) init).toReal = (f p).toReal := by
  induction l generalizing init with
  | nil => exact Or.inl rfl
  | cons q t ih =>
    simp only [List.foldl_cons]
    rcases ih ((f q).fmax init) with h | ⟨p, hp, h⟩
    · rw [h, QS3.toReal_fmax]
      rcases max_cases (f q).toReal init.toReal with ⟨he, _⟩ | ⟨he, _⟩
      · exact Or.inr ⟨q, List.mem_cons_self q t, he⟩
      · exact Or.inl he
    · exact Or.inr ⟨p, List.mem_cons_of_mem q hp, h⟩

theorem fold_fmax_eq (l : List Pt) (f : Pt → QS3) (init : QS3) (p0 : Pt) (hp0 : p0 ∈ l)
    (hub : ∀ p ∈ l, (f p).toReal ≤ (f p0).toReal)
    (hinit : init.toReal ≤ (f p0).toReal) :
    (l.foldl (fun acc q => (f q).fmax acc) init).toReal = (f p0).toReal := by
  have h1 := fold_fmax_ge_mem l f init p0 hp0
  rcases fold_fmax_mem_or_init l f init with h | ⟨p, hp, h⟩
  · rw [h] at h1 ⊢
    linarith
  · rw [h] at h1 ⊢
    linarith [hub p hp]

theorem fold_fmax_argmax (l : List Pt) (f : Pt → QS3) (init : QS3) (p1 : Pt) (hp1 : p1 ∈ l)
    (hgt : init.toReal < (f p1).toReal) :
    ∃ p0 ∈ l, (l.foldl (fun acc q => (f q).fmax acc) init).toReal = (f p0).toReal := by
  rcases fold_fmax_mem_or_init l f init with h | hex
  · exfalso
    have := fold_fmax_ge_mem l f init p1 hp1
    linarith [h]
  · exact hex

/-- The combined bbox fold splits into four independent folds. -/
theorem bbox_fold_split (l : List Pt) (init : BBox) :
    (l.foldl
      (fun bb p => ⟨p.px.fmin bb.xMin, p.py.fmin bb.yMin, p.px.fmax bb.xMax, p.py.fmax bb.yMax⟩)
      init : BBox) =
    ⟨l.foldl (fun acc p => p.px.fmin acc) init.xMin,
     l.foldl (fun acc p => p.py.fmin acc) init.yMin,
     l.foldl (fun acc p => p.px.fmax acc) init.xMax,
     l.foldl (fun acc p => p.py.fmax acc) init.yMax⟩ := by
  induction l generalizing init with
  | nil => rfl
  | cons p t ih =>
    simp only [List.foldl_cons]
    rw [ih]

theorem bboxOf_split (m : RMesh) :
    bboxOf m =
    ⟨m.nodes.foldl (fun acc p => p.px.fmin acc) dblMax,
     m.nodes.foldl (fun acc p => p.py.fmin acc) dblMax,
     m.nodes.foldl (fun acc p => p.px.fmax acc) dblMax.neg,
     m.nodes.foldl (fun acc p => p.py.fmax acc) dblMax.neg⟩ := by
  unfold bboxOf
  exact bbox_fold_split m.nodes _

/-! Structured mesh and shear lemmas. -/

theorem structuredMesh_nodes_length (nx ny : ℕ) :
    (structuredMesh nx ny).nodes.length = nx * ny := by
  simp [structuredMesh]

theorem structuredMesh_cells_length (nx ny : ℕ) :
    (structuredMesh nx ny).cells.length = 2*(nx-1)*(ny-1) := by
  simp [structuredMesh]

theorem structuredMesh_nodes_getD (nx ny n : ℕ) (h : n < nx * ny) :
    (structuredMesh nx ny).nodes.getD n Pt.zero =
      ⟨QS3.ofInt ((n % nx : ℕ) : ℤ), QS3.ofInt ((n / nx : ℕ) : ℤ)⟩ := by
  unfold structuredMesh
  rw [List.getD_eq_getElem _ _ (by simpa using h)]
  simp

theorem structuredMesh_cells_getD (nx ny c : ℕ) (h : c < 2*(nx-1)*(ny-1)) :
    (structuredMesh nx ny).cells.getD c (0,0,0) =
      (if c % 2 = 0 then
        (c/2/(nx-1)*nx + c/2%(nx-1), c/2/(nx-1)*nx + c/2%(nx-1) + 1,
         (c/2/(nx-1)+1)*nx + c/2%(nx-1) + 1)
      else
        (c/2/(nx-1)*nx + c/2%(nx-1), (c/2/(nx-1)+1)*nx + c/2%(nx-1) + 1,
         (c/2/(nx-1)+1)*nx + c/2%(nx-1))) := by
  unfold structuredMesh
  rw [List.getD_eq_getElem _ _ (by simpa using h)]
  simp

theorem nodeId_decode (nx i j : ℕ) (hi : i < nx) :
    (j*nx+i) % nx = i ∧ (j*nx+i) / nx = j := by
  have h0 : 0 < nx := lt_of_le_of_lt (Nat.zero_le i) hi
  constructor
  · rw [Nat.mul_comm j nx, Nat.mul_add_mod]
    exact Nat.mod_eq_of_lt hi
  · rw [Nat.mul_comm j nx, Nat.mul_add_div h0]
    simp [Nat.div_eq_of_lt hi]

theorem quadId_decode (w qi qj : ℕ) (hqi : qi < w) :
    (qj*w+qi) % w = qi ∧ (qj*w+qi) / w = qj := nodeId_decode w qi qj hqi

theorem rectRawMesh_cells (ny : ℕ) :
    (rectRawMesh ny).cells = (structuredMesh (rectNx ny) ny).cells := rfl

theorem rectRawMesh_nodes_length (ny : ℕ) :
    (rectRawMesh ny).nodes.length = rectNx ny * ny := by
  unfold rectRawMesh
  simp [structuredMesh_nodes_length]

theorem rectRawMesh_nodes_getD (ny n : ℕ) (h : n < rectNx ny * ny) :
    (rectRawMesh ny).nodes.getD n Pt.zero =
      shearNode ⟨QS3.ofInt ((n % rectNx ny : ℕ) : ℤ), QS3.ofInt ((n / rectNx ny : ℕ) : ℤ)⟩ := by
  unfold rectRawMesh
  have hlen : n < ((structuredMesh (rectNx ny) ny).nodes.map shearNode).length := by
    simpa [structuredMesh_nodes_length] using h
  rw [List.getD_eq_getElem _ _ hlen, List.getElem_map]
  congr 1
  have h2 : n < (structuredMesh (rectNx ny) ny).nodes.length := by
    simpa [structuredMesh_nodes_length] using h
  rw [← List.getD_eq_getElem _ Pt.zero h2]
  exact structuredMesh_nodes_getD _ _ _ (by simpa [structuredMesh_nodes_length] using h)

theorem rect_node_getD (ny i j : ℕ) (hi : i < rectNx ny) (hj : j < ny) :
    (rectRawMesh ny).nodes.getD (j * rectNx ny + i) Pt.zero =
      shearNode ⟨QS3.ofInt (i:ℤ), QS3.ofInt (j:ℤ)⟩ := by
  have hd := nodeId_decode (rectNx ny) i j hi
  have hb : j * rectNx ny + i < rectNx ny * ny := by
    calc j * rectNx ny + i < j * rectNx ny + rectNx ny := by omega
    _ = (j+1) * rectNx ny := by ring
    _ ≤ ny * rectNx ny := Nat.mul_le_mul_right _ (by omega)
    _ = rectNx ny * ny := Nat.mul_comm _ _
  rw [rectRawMesh_nodes_getD ny _ hb, hd.1, hd.2]

theorem toReal_qhalf : qhalf.toReal = 1/2 := by
  unfold qhalf QS3.toReal
  rw [Q2.val_frac, Q2.val_ofInt]
  norm_num

theorem toReal_qtenth : qtenth.toReal = 1/10 := by
  unfold qtenth QS3.toReal
  rw [Q2.val_frac, Q2.val_ofInt]
  norm_num

theorem shearNode_px (p : Pt) : (shearNode p).px.toReal = p.px.toReal - p.py.toReal / 2 := by
  unfold shearNode
  rw [QS3.toReal_sub, QS3.toReal_mul, toReal_qhalf]
  ring

theorem shearNode_py (p : Pt) : (shearNode p).py.toReal = p.py.toReal * Real.sqrt 3 / 2 := by
  unfold shearNode
  rw [QS3.toReal_div, QS3.toReal_mul, QS3.toReal_sqrt3, QS3.toReal_ofInt]
  norm_num

theorem rectLength_val (ny : ℕ) : (rectLength ny).toReal = ((ny:ℝ) - 1) * Real.sqrt 3 := by
  unfold rectLength rectNewHeight
  simp only [QS3.toReal_mul, QS3.toReal_div, QS3.toReal_sqrt3, QS3.toReal_ofInt]
  push_cast
  ring

theorem toReal_dblMax_neg : dblMax.neg.toReal = -dblMax.toReal := QS3.toReal_neg dblMax

theorem dblMax_pos : 0 < dblMax.toReal := lt_trans (by norm_num) dblMax_big

theorem rectHi_x_val (ny : ℕ) :
    (rectHi ny).1.toReal =
      ((ny:ℝ)-1)*Real.sqrt 3 + ((ny:ℝ)-1)*Real.sqrt 3 / (3*(ny:ℝ)) * (1/10) := by
  unfold rectHi
  rw [QS3.toReal_add, QS3.toReal_mul, QS3.toReal_div, rectLength_val, toReal_qtenth,
    QS3.toReal_ofInt]
  unfold rectNx
  push_cast
  ring

theorem rectHi_gt_one (ny : ℕ) (h2 : 2 ≤ ny) : 1 < (rectHi ny).1.toReal := by
  rw [rectHi_x_val]
  have hs3 : (1:ℝ) < Real.sqrt 3 := by
    have := Real.sqrt_lt_sqrt (by norm_num : (0:ℝ) ≤ 1) (by norm_num : (1:ℝ) < 3)
    simpa using this
  have hny : (2:ℝ) ≤ (ny:ℝ) := by exact_mod_cast h2
  have h1 : (1:ℝ) ≤ ((ny:ℝ)-1) := by linarith
  have hL : (1:ℝ) < ((ny:ℝ)-1)*Real.sqrt 3 := by nlinarith
  have hpad : (0:ℝ) ≤ ((ny:ℝ)-1)*Real.sqrt 3 / (3*(ny:ℝ)) * (1/10) := by
    apply mul_nonneg
    · apply div_nonneg
      · nlinarith [sqrt3_pos]
      · positivity
    · norm_num
  linarith

/-- Strict interior membership of a point in a box, at the real level. -/
def ptInBB (p : Pt) (bblo bbhi : QS3 × QS3) : Prop :=
  bblo.1.toReal < p.px.toReal ∧ bblo.2.toReal < p.py.toReal ∧
  p.px.toReal < bbhi.1.toReal ∧ p.py.toReal < bbhi.2.toReal

theorem TriangleInBB_iff (mesh : RMesh) (cellIdx : ℕ) (bblo bbhi : QS3 × QS3) :
    TriangleInBB mesh cellIdx bblo bbhi = true ↔
    (ptInBB (mesh.nodes.getD (mesh.cells.getD cellIdx (0,0,0)).1 Pt.zero) bblo bbhi ∨
     ptInBB (mesh.nodes.getD (mesh.cells.getD cellIdx (0,0,0)).2.1 Pt.zero) bblo bbhi ∨
     ptInBB (mesh.nodes.getD (mesh.cells.getD cellIdx (0,0,0)).2.2 Pt.zero) bblo bbhi) := by
  unfold TriangleInBB ptInBB
  simp only [Bool.or_eq_true, Bool.and_eq_true, QS3.blt_iff]
  tauto

theorem rectKeep_mem (ny c : ℕ) :
    c ∈ rectKeep ny ↔ c < 2*(rectNx ny-1)*(ny-1) ∧
      TriangleInBB (rectRawMesh ny) c (rectLo ny) (rectHi ny) = true := by
  unfold rectKeep
  rw [List.mem_filter, List.mem_range]
  rw [rectRawMesh_cells, structuredMesh_cells_length]

/-! Extraction lemmas. -/

theorem extractNodeIds_mem (mesh : RMesh) (keep : List ℕ) (v : ℕ) :
    v ∈ extractNodeIds mesh keep ↔ ∃ c ∈ keep,
      (v = (mesh.cells.getD c (0,0,0)).1 ∨ v = (mesh.cells.getD c (0,0,0)).2.1 ∨
       v = (mesh.cells.getD c (0,0,0)).2.2) := by
  unfold extractNodeIds
  rw [List.mem_dedup, List.mem_flatten]
  constructor
  · rintro ⟨l, hl, hv⟩
    rw [List.mem_map] at hl
    obtain ⟨c, hc, rfl⟩ := hl
    refine ⟨c, hc, ?_⟩
    simpa using hv
  · rintro ⟨c, hc, hv⟩
    refine ⟨_, List.mem_map_of_mem _ hc, ?_⟩
    simpa using hv

theorem extracted_nodes_length (mesh : RMesh) (keep : List ℕ) :
    (AtlasExtractSubMeshMinimal mesh keep).nodes.length = (extractNodeIds mesh keep).length := by
  unfold AtlasExtractSubMeshMinimal
  simp

theorem extracted_nodes_getD (mesh : RMesh) (keep : List ℕ) (v : ℕ)
    (hv : v ∈ extractNodeIds mesh keep) :
    (AtlasExtractSubMeshMinimal mesh keep).nodes.getD
        ((extractNodeIds mesh keep).indexOf v) Pt.zero = mesh.nodes.getD v Pt.zero := by
  unfold AtlasExtractSubMeshMinimal
  have hlt : (extractNodeIds mesh keep).indexOf v < (extractNodeIds mesh keep).length :=
    List.indexOf_lt_length.mpr hv
  rw [List.getD_eq_getElem _ _ (by simpa using hlt), List.getElem_map]
  congr 1
  exact List.indexOf_get hlt

theorem extracted_indexOf_lt (mesh : RMesh) (keep : List ℕ) (v : ℕ)
    (hv : v ∈ extractNodeIds mesh keep) :
    (extractNodeIds mesh keep).indexOf v < (AtlasExtractSubMeshMinimal mesh keep).nodes.length := by
  rw [extracted_nodes_length]
  exact List.indexOf_lt_length.mpr hv

theorem extracted_nodes_mem (mesh : RMesh) (keep : List ℕ) (p : Pt)
    (hp : p ∈ (AtlasExtractSubMeshMinimal mesh keep).nodes) :
    ∃ v ∈ extractNodeIds mesh keep, p = mesh.nodes.getD v Pt.zero := by
  unfold AtlasExtractSubMeshMinimal at hp
  rw [List.mem_map] at hp
  obtain ⟨v, hv, rfl⟩ := hp
  exact ⟨v, hv, rfl⟩

theorem extracted_node_of_id (mesh : RMesh) (keep : List ℕ) (v : ℕ)
    (hv : v ∈ extractNodeIds mesh keep) :
    mesh.nodes.getD v Pt.zero ∈ (AtlasExtractSubMeshMinimal mesh keep).nodes := by
  unfold AtlasExtractSubMeshMinimal
  exact List.mem_map_of_mem _ hv

theorem extracted_cells_length (mesh : RMesh) (keep : List ℕ) :
    (AtlasExtractSubMeshMinimal mesh keep).cells.length = keep.length := by
  unfold AtlasExtractSubMeshMinimal
  simp

theorem extracted_cells_getD (mesh : RMesh) (keep : List ℕ) (k : ℕ) (hk : k < keep.length) :
    (AtlasExtractSubMeshMinimal mesh keep).cells.getD k (0,0,0) =
      ((extractNodeIds mesh keep).indexOf (mesh.cells.getD (keep.getD k 0) (0,0,0)).1,
       (extractNodeIds mesh keep).indexOf (mesh.cells.getD (keep.getD k 0) (0,0,0)).2.1,
       (extractNodeIds mesh keep).indexOf (mesh.cells.getD (keep.getD k 0) (0,0,0)).2.2) := by
  unfold AtlasExtractSubMeshMinimal
  rw [List.getD_eq_getElem _ _ (by simpa using hk), List.getElem_map,
    List.getD_eq_getElem _ _ hk]

theorem keep_getD_mem (keep : List ℕ) (k : ℕ) (hk : k < keep.length) :
    keep.getD k 0 ∈ keep := by
  rw [List.getD_eq_getElem _ _ hk]
  exact List.getElem_mem hk

/-! Normalizer lemmas. -/

/-- Pointwise form of the re-center and scale passes. -/
def normalizePt (bb : BBox) (p : Pt) : Pt :=
  ⟨((p.px.sub bb.xMin).sub ((bb.xMax.sub bb.xMin).div (QS3.ofInt 2))).mul
      ((QS3.ofInt 180).div (bb.yMax.sub bb.yMin)),
   ((p.py.sub bb.yMin).sub ((bb.yMax.sub bb.yMin).div (QS3.ofInt 2))).mul
      ((QS3.ofInt 180).div (bb.yMax.sub bb.yMin))⟩

theorem normalizeMesh_nodes (m : RMesh) :
    (normalizeMesh m).nodes = m.nodes.map (normalizePt (bboxOf m)) := by
  unfold normalizeMesh
  dsimp only
  rw [List.map_map]
  rfl

theorem normalizeMesh_cells (m : RMesh) : (normalizeMesh m).cells = m.cells := rfl

theorem normalizePt_px (bb : BBox) (p : Pt) :
    (normalizePt bb p).px.toReal =
      (p.px.toReal - bb.xMin.toReal - (bb.xMax.toReal - bb.xMin.toReal)/2) *
        (180 / (bb.yMax.toReal - bb.yMin.toReal)) := by
  unfold normalizePt
  rw [QS3.toReal_mul, QS3.toReal_sub, QS3.toReal_sub, QS3.toReal_div, QS3.toReal_sub,
    QS3.toReal_div, QS3.toReal_sub, QS3.toReal_ofInt, QS3.toReal_ofInt]
  norm_num

theorem normalizePt_py (bb : BBox) (p : Pt) :
    (normalizePt bb p).py.toReal =
      (p.py.toReal - bb.yMin.toReal - (bb.yMax.toReal - bb.yMin.toReal)/2) *
        (180 / (bb.yMax.toReal - bb.yMin.toReal)) := by
  unfold normalizePt
  rw [QS3.toReal_mul, QS3.toReal_sub, QS3.toReal_sub, QS3.toReal_div, QS3.toReal_sub,
    QS3.toReal_div, QS3.toReal_sub, QS3.toReal_ofInt, QS3.toReal_ofInt]
  norm_num

/-! Cells that the selection always keeps, and the shape of extracted nodes. -/

theorem rect_numCells_pos (ny : ℕ) (h2 : 2 ≤ ny) : 0 < 2*(rectNx ny - 1)*(ny - 1) := by
  unfold rectNx
  have h1 : 1 ≤ ny - 1 := by omega
  have h5 : 1 ≤ 3*ny - 1 := by omega
  calc 0 < 2*1*1 := by norm_num
  _ ≤ 2*(3*ny-1)*(ny-1) := by
        apply Nat.mul_le_mul
        · exact Nat.mul_le_mul_left 2 h5
        · exact h1

theorem rect_cell_zero (ny : ℕ) (h2 : 2 ≤ ny) :
    (rectRawMesh ny).cells.getD 0 (0,0,0) = (0, 1, rectNx ny + 1) := by
  rw [rectRawMesh_cells, structuredMesh_cells_getD _ _ 0 (rect_numCells_pos ny h2)]
  norm_num

theorem lattice_px_val (i j : ℤ) :
    (shearNode ⟨QS3.ofInt i, QS3.ofInt j⟩).px.toReal = (i:ℝ) - (j:ℝ)/2 := by
  rw [shearNode_px]
  dsimp only
  rw [QS3.toReal_ofInt, QS3.toReal_ofInt]

theorem lattice_py_val (i j : ℤ) :
    (shearNode ⟨QS3.ofInt i, QS3.ofInt j⟩).py.toReal = (j:ℝ) * Real.sqrt 3 / 2 := by
  rw [shearNode_py]
  dsimp only
  rw [QS3.toReal_ofInt]

theorem zero_mem_rectKeep (ny : ℕ) (h2 : 2 ≤ ny) : 0 ∈ rectKeep ny := by
  rw [rectKeep_mem]
  refine ⟨rect_numCells_pos ny h2, ?_⟩
  rw [TriangleInBB_iff, rect_cell_zero ny h2]
  right; left
  have hn1 : (rectRawMesh ny).nodes.getD (0, 1, rectNx ny + 1).2.1 Pt.zero =
      shearNode ⟨QS3.ofInt 1, QS3.ofInt 0⟩ := by
    have h := rect_node_getD ny 1 0 (by unfold rectNx; omega) (by omega)
    simpa using h
  unfold ptInBB
  rw [hn1, lattice_px_val, lattice_py_val]
  have hbig := dblMax_pos
  have hhi := rectHi_gt_one ny h2
  have hlo1 : (rectLo ny).1.toReal = 0 := by
    rw [show (rectLo ny).1 = QS3.ofInt 0 from rfl, QS3.toReal_ofInt]
    norm_num
  have hlo2 : (rectLo ny).2.toReal = -dblMax.toReal := toReal_dblMax_neg
  have hhy : (rectHi ny).2.toReal = dblMax.toReal := rfl
  rw [hlo1, hlo2, hhy]
  push_cast
  refine ⟨by norm_num, by linarith, by linarith, by linarith⟩

theorem rect_node_one_mem (ny : ℕ) (h2 : 2 ≤ ny) :
    shearNode ⟨QS3.ofInt 1, QS3.ofInt 0⟩ ∈ (rectExtracted ny).nodes := by
  have hid : (1:ℕ) ∈ extractNodeIds (rectRawMesh ny) (rectKeep ny) := by
    rw [extractNodeIds_mem]
    refine ⟨0, zero_mem_rectKeep ny h2, ?_⟩
    rw [rect_cell_zero ny h2]
    right; left
    rfl
  have h := extracted_node_of_id (rectRawMesh ny) (rectKeep ny) 1 hid
  have hn1 : (rectRawMesh ny).nodes.getD 1 Pt.zero = shearNode ⟨QS3.ofInt 1, QS3.ofInt 0⟩ := by
    have h3 := rect_node_getD ny 1 0 (by unfold rectNx; omega) (by omega)
    simpa using h3
  rw [hn1] at h
  exact h

theorem rect_node_up_mem (ny : ℕ) (h2 : 2 ≤ ny) :
    shearNode ⟨QS3.ofInt 1, QS3.ofInt 1⟩ ∈ (rectExtracted ny).nodes := by
  have hid : (rectNx ny + 1 : ℕ) ∈ extractNodeIds (rectRawMesh ny) (rectKeep ny) := by
    rw [extractNodeIds_mem]
    refine ⟨0, zero_mem_rectKeep ny h2, ?_⟩
    rw [rect_cell_zero ny h2]
    right; right
    rfl
  have h := extracted_node_of_id (rectRawMesh ny) (rectKeep ny) _ hid
  have hn1 : (rectRawMesh ny).nodes.getD (rectNx ny + 1) Pt.zero =
      shearNode ⟨QS3.ofInt 1, QS3.ofInt 1⟩ := by
    have h3 := rect_node_getD ny 1 1 (by unfold rectNx; omega) (by omega)
    rw [show (1 * rectNx ny + 1 : ℕ) = rectNx ny + 1 by omega] at h3
    simpa using h3
  rw [hn1] at h
  exact h

theorem rect_extracted_node_form (ny : ℕ) (p : Pt)
    (hp : p ∈ (rectExtracted ny).nodes) :
    ∃ i j : ℕ, i < rectNx ny ∧ j < ny ∧ p = shearNode ⟨QS3.ofInt (i:ℤ), QS3.ofInt (j:ℤ)⟩ := by
  obtain ⟨v, hv, rfl⟩ := extracted_nodes_mem _ _ p hp
  rw [extractNodeIds_mem] at hv
  obtain ⟨c, hc, hvc⟩ := hv
  rw [rectKeep_mem] at hc
  obtain ⟨hclt, _⟩ := hc
  rw [rectRawMesh_cells, structuredMesh_cells_getD _ _ c hclt] at hvc
  have hprod : 0 < 2*(rectNx ny-1)*(ny-1) := lt_of_le_of_lt (Nat.zero_le _) hclt
  have hnx1 : 0 < rectNx ny - 1 := by
    by_contra h0
    have hz : rectNx ny - 1 = 0 := by omega
    rw [hz] at hprod
    simp at hprod
  have hny1 : 0 < ny - 1 := by
    by_contra h0
    have hz : ny - 1 = 0 := by omega
    rw [hz] at hprod
    simp at hprod
  have hqi : c/2 % (rectNx ny-1) < rectNx ny-1 := Nat.mod_lt _ hnx1
  have hqj : c/2 / (rectNx ny-1) < ny-1 := by
    rw [Nat.div_lt_iff_lt_mul hnx1]
    have h1 : c/2 < (rectNx ny-1)*(ny-1) := by
      have hc2 := hclt
      rw [Nat.mul_assoc] at hc2
      omega
    calc c/2 < (rectNx ny-1)*(ny-1) := h1
    _ = (ny-1)*(rectNx ny-1) := Nat.mul_comm _ _
  set nx := rectNx ny with hnx
  set qi := c/2 % (nx-1) with hqidef
  set qj := c/2 / (nx-1) with hqjdef
  by_cases hpar : c % 2 = 0
  · rw [if_pos hpar] at hvc
    dsimp only at hvc
    rcases hvc with rfl | rfl | rfl
    · refine ⟨qi, qj, by omega, by omega, ?_⟩
      rw [rect_node_getD ny qi qj (by omega) (by omega)]
    · refine ⟨qi+1, qj, by omega, by omega, ?_⟩
      rw [show qj*nx+qi+1 = qj*nx+(qi+1) by omega]
      rw [rect_node_getD ny (qi+1) qj (by omega) (by omega)]
    · refine ⟨qi+1, qj+1, by omega, by omega, ?_⟩
      rw [show (qj+1)*nx+qi+1 = (qj+1)*nx+(qi+1) by omega]
      rw [rect_node_getD ny (qi+1) (qj+1) (by omega) (by omega)]
  · rw [if_neg hpar] at hvc
    dsimp only at hvc
    rcases hvc with rfl | rfl | rfl
    · refine ⟨qi, qj, by omega, by omega, ?_⟩
      rw [rect_node_getD ny qi qj (by omega) (by omega)]
    · refine ⟨qi+1, qj+1, by omega, by omega, ?_⟩
      rw [show (qj+1)*nx+qi+1 = (qj+1)*nx+(qi+1) by omega]
      rw [rect_node_getD ny (qi+1) (qj+1) (by omega) (by omega)]
    · refine ⟨qi, qj+1, by omega, by omega, ?_⟩
      rw [rect_node_getD ny qi (qj+1) (by omega) (by omega)]

/-! Bounding box of the extracted submesh. -/

theorem rect_node_bounds (ny : ℕ) (p : Pt) (hp : p ∈ (rectExtracted ny).nodes) :
    0 ≤ p.py.toReal ∧ p.py.toReal ≤ ((ny:ℝ)-1) * Real.sqrt 3 / 2 := by
  obtain ⟨i, j, hi, hj, rfl⟩ := rect_extracted_node_form ny p hp
  rw [lattice_py_val]
  have hs := sqrt3_pos
  have h1 : 1 ≤ ny := by omega
  have hjr : (j:ℝ) ≤ (ny:ℝ) - 1 := by
    have hj1 : j ≤ ny - 1 := by omega
    have hc := (Nat.cast_le (α := ℝ)).mpr hj1
    rwa [Nat.cast_sub h1, Nat.cast_one] at hc
  have hj0 : (0:ℝ) ≤ (j:ℕ) := Nat.cast_nonneg j
  push_cast
  constructor
  · nlinarith
  · nlinarith

theorem rect_yMin_eq (ny : ℕ) (h2 : 2 ≤ ny) :
    (bboxOf (rectExtracted ny)).yMin.toReal = 0 := by
  rw [bboxOf_split]
  dsimp only
  have h : (((rectExtracted ny).nodes.foldl (fun acc p => p.py.fmin acc) dblMax)).toReal
      = ((shearNode ⟨QS3.ofInt 1, QS3.ofInt 0⟩).py).toReal :=
    fold_fmin_eq _ (fun p => p.py) _ _ (rect_node_one_mem ny h2)
      (fun p hp => by
        have hb := (rect_node_bounds ny p hp).1
        rw [lattice_py_val]
        push_cast
        linarith)
      (by
        rw [lattice_py_val]
        have := dblMax_pos
        push_cast
        linarith)
  rw [h, lattice_py_val]
  push_cast
  ring

theorem rect_yMax_facts (ny : ℕ) (h2 : 2 ≤ ny) :
    (∃ pM ∈ (rectExtracted ny).nodes,
        (bboxOf (rectExtracted ny)).yMax.toReal = pM.py.toReal) ∧
    (∀ p ∈ (rectExtracted ny).nodes,
        p.py.toReal ≤ (bboxOf (rectExtracted ny)).yMax.toReal) ∧
    Real.sqrt 3 / 2 ≤ (bboxOf (rectExtracted ny)).yMax.toReal := by
  rw [bboxOf_split]
  dsimp only
  have hup := rect_node_up_mem ny h2
  have hupval : ((shearNode ⟨QS3.ofInt 1, QS3.ofInt 1⟩).py).toReal = Real.sqrt 3 / 2 := by
    rw [lattice_py_val]
    push_cast
    ring
  refine ⟨?_, ?_, ?_⟩
  · have h : ∃ p0 ∈ (rectExtracted ny).nodes,
        (((rectExtracted ny).nodes.foldl (fun acc p => p.py.fmax acc) dblMax.neg)).toReal
          = (p0.py).toReal :=
      fold_fmax_argmax _ (fun p => p.py) _ _ hup
        (by
          rw [hupval, toReal_dblMax_neg]
          have := dblMax_pos
          have := sqrt3_pos
          linarith)
    obtain ⟨p0, hp0, he⟩ := h
    exact ⟨p0, hp0, he⟩
  · intro p hp
    exact fold_fmax_ge_mem _ (fun q => q.py) _ p hp
  · have h := fold_fmax_ge_mem _ (fun q => q.py) dblMax.neg _ hup
    rw [hupval] at h
    exact h

theorem rect_xMin_facts (ny : ℕ) (h2 : 2 ≤ ny) :
    (∃ pm ∈ (rectExtracted ny).nodes,
        (bboxOf (rectExtracted ny)).xMin.toReal = pm.px.toReal) ∧
    (∀ p ∈ (rectExtracted ny).nodes,
        (bboxOf (rectExtracted ny)).xMin.toReal ≤ p.px.toReal) ∧
    (bboxOf (rectExtracted ny)).xMin.toReal ≤ 1 := by
  rw [bboxOf_split]
  dsimp only
  have hone := rect_node_one_mem ny h2
  have honeval : ((shearNode ⟨QS3.ofInt 1, QS3.ofInt 0⟩).px).toReal = 1 := by
    rw [lattice_px_val]
    push_cast
    ring
  refine ⟨?_, ?_, ?_⟩
  · have h : ∃ p0 ∈ (rectExtracted ny).nodes,
        (((rectExtracted ny).nodes.foldl (fun acc p => p.px.fmin acc) dblMax)).toReal
          = (p0.px).toReal :=
      fold_fmin_argmin _ (fun p => p.px) _ _ hone
        (by
          rw [honeval]
          have := dblMax_big
          linarith)
    obtain ⟨p0, hp0, he⟩ := h
    exact ⟨p0, hp0, he⟩
  · intro p hp
    exact fold_fmin_le_mem _ (fun q => q.px) _ p hp
  · have h := fold_fmin_le_mem _ (fun q => q.px) dblMax _ hone
    rw [honeval] at h
    exact h

theorem rect_xMax_facts (ny : ℕ) (h2 : 2 ≤ ny) :
    (∃ pM ∈ (rectExtracted ny).nodes,
        (bboxOf (rectExtracted ny)).xMax.toReal = pM.px.toReal) ∧
    (∀ p ∈ (rectExtracted ny).nodes,
        p.px.toReal ≤ (bboxOf (rectExtracted ny)).xMax.toReal) ∧
    1 ≤ (bboxOf (rectExtracted ny)).xMax.toReal := by
  rw [bboxOf_split]
  dsimp only
  have hone := rect_node_one_mem ny h2
  have honeval : ((shearNode ⟨QS3.ofInt 1, QS3.ofInt 0⟩).px).toReal = 1 := by
    rw [lattice_px_val]
    push_cast
    ring
  refine ⟨?_, ?_, ?_⟩
  · have h : ∃ p0 ∈ (rectExtracted ny).nodes,
        (((rectExtracted ny).nodes.foldl (fun acc p => p.px.fmax acc) dblMax.neg)).toReal
          = (p0.px).toReal :=
      fold_fmax_argmax _ (fun p => p.px) _ _ hone
        (by
          rw [honeval, toReal_dblMax_neg]
          have := dblMax_pos
          linarith)
    obtain ⟨p0, hp0, he⟩ := h
    exact ⟨p0, hp0, he⟩
  · intro p hp
    exact fold_fmax_ge_mem _ (fun q => q.px) _ p hp
  · have h := fold_fmax_ge_mem _ (fun q => q.px) dblMax.neg _ hone
    rw [honeval] at h
    exact h

theorem rectLY_toReal (ny : ℕ) :
    (rectLY ny).toReal =
      (bboxOf (rectExtracted ny)).yMax.toReal - (bboxOf (rectExtracted ny)).yMin.toReal := by
  unfold rectLY
  exact QS3.toReal_sub _ _

theorem rectLY_pos_of_two_le (ny : ℕ) (h2 : 2 ≤ ny) : 0 < (rectLY ny).toReal := by
  rw [rectLY_toReal, rect_yMin_eq ny h2]
  have h := (rect_yMax_facts ny h2).2.2
  have := sqrt3_pos
  linarith

/-! C1: extent and centering of the returned mesh. -/

theorem rect_node_one_val_py : (shearNode ⟨QS3.ofInt 1, QS3.ofInt 0⟩).py.toReal = 0 := by
  rw [lattice_py_val]
  push_cast
  ring

theorem rect_node_one_val_px : (shearNode ⟨QS3.ofInt 1, QS3.ofInt 0⟩).px.toReal = 1 := by
  rw [lattice_px_val]
  push_cast
  ring

/-- C1: for every integer ny ≥ 2, the mesh returned by AtlasMeshRect(ny) has
node y-extent exactly 180 (the code's bounding-box scan over all nodes gives
max y minus min y equal to 180, the y bounds being attained by nodes and
bounding every node), and the mesh is centered at the origin: (max+min)/2
equals 0 on both the x and the y axis. -/
theorem AtlasMeshRect_extent_centered (ny : ℕ) (h2 : 2 ≤ ny) :
    (bboxOf (AtlasMeshRect ny)).yMax.toReal - (bboxOf (AtlasMeshRect ny)).yMin.toReal = 180 ∧
    ((bboxOf (AtlasMeshRect ny)).xMax.toReal + (bboxOf (AtlasMeshRect ny)).xMin.toReal) / 2 = 0 ∧
    ((bboxOf (AtlasMeshRect ny)).yMax.toReal + (bboxOf (AtlasMeshRect ny)).yMin.toReal) / 2 = 0 ∧
    (∀ p ∈ (AtlasMeshRect ny).nodes,
      (bboxOf (AtlasMeshRect ny)).yMin.toReal ≤ p.py.toReal ∧
      p.py.toReal ≤ (bboxOf (AtlasMeshRect ny)).yMax.toReal ∧
      (bboxOf (AtlasMeshRect ny)).xMin.toReal ≤ p.px.toReal ∧
      p.px.toReal ≤ (bboxOf (AtlasMeshRect ny)).xMax.toReal) ∧
    (∃ p ∈ (AtlasMeshRect ny).nodes, p.py.toReal = (bboxOf (AtlasMeshRect ny)).yMax.toReal) ∧
    (∃ p ∈ (AtlasMeshRect ny).nodes, p.py.toReal = (bboxOf (AtlasMeshRect ny)).yMin.toReal) := by
  have hs3 := sqrt3_pos
  have hy0 := rect_yMin_eq ny h2
  obtain ⟨⟨pM, hpM, hyM⟩, hyub, hyMge⟩ := rect_yMax_facts ny h2
  obtain ⟨⟨pxm, hpxm, hxm⟩, hxlb, hxm1⟩ := rect_xMin_facts ny h2
  obtain ⟨⟨pxM, hpxM, hxM⟩, hxub, hxM1⟩ := rect_xMax_facts ny h2
  have hyMpos : 0 < (bboxOf (rectExtracted ny)).yMax.toReal :=
    lt_of_lt_of_le (by linarith) hyMge
  have hlY : 0 < (bboxOf (rectExtracted ny)).yMax.toReal -
      (bboxOf (rectExtracted ny)).yMin.toReal := by
    rw [hy0]
    linarith
  have hspos : 0 < 180 / ((bboxOf (rectExtracted ny)).yMax.toReal -
      (bboxOf (rectExtracted ny)).yMin.toReal) := by positivity
  have hAnodes : (AtlasMeshRect ny).nodes =
      (rectExtracted ny).nodes.map (normalizePt (bboxOf (rectExtracted ny))) :=
    normalizeMesh_nodes (rectExtracted ny)
  -- values of the normalized extreme nodes
  have hval1 : (normalizePt (bboxOf (rectExtracted ny))
      (shearNode ⟨QS3.ofInt 1, QS3.ofInt 0⟩)).py.toReal = -90 := by
    rw [normalizePt_py, rect_node_one_val_py, hy0]
    field_simp
    ring
  have hval2 : (normalizePt (bboxOf (rectExtracted ny)) pM).py.toReal = 90 := by
    rw [normalizePt_py, ← hyM, hy0]
    field_simp
    ring
  -- the four bbox components of the final mesh
  have hAymin : (bboxOf (AtlasMeshRect ny)).yMin.toReal = -90 := by
    rw [bboxOf_split]
    dsimp only
    rw [hAnodes, List.foldl_map]
    have h : (((rectExtracted ny).nodes.foldl
        (fun acc p => (normalizePt (bboxOf (rectExtracted ny)) p).py.fmin acc) dblMax)).toReal
        = ((normalizePt (bboxOf (rectExtracted ny))
            (shearNode ⟨QS3.ofInt 1, QS3.ofInt 0⟩)).py).toReal :=
      fold_fmin_eq _ (fun p => (normalizePt (bboxOf (rectExtracted ny)) p).py) _ _
        (rect_node_one_mem ny h2)
        (fun p hp => by
          rw [normalizePt_py, normalizePt_py]
          apply mul_le_mul_of_nonneg_right _ (le_of_lt hspos)
          have hb := (rect_node_bounds ny p hp).1
          rw [rect_node_one_val_py]
          linarith)
        (by
          rw [hval1]
          have := dblMax_pos
          linarith)
    rw [h, hval1]
  have hAymax : (bboxOf (AtlasMeshRect ny)).yMax.toReal = 90 := by
    rw [bboxOf_split]
    dsimp only
    rw [hAnodes, List.foldl_map]
    have h : (((rectExtracted ny).nodes.foldl
        (fun acc p => (normalizePt (bboxOf (rectExtracted ny)) p).py.fmax acc) dblMax.neg)).toReal
        = ((normalizePt (bboxOf (rectExtracted ny)) pM).py).toReal :=
      fold_fmax_eq _ (fun p => (normalizePt (bboxOf (rectExtracted ny)) p).py) _ _
        hpM
        (fun p hp => by
          rw [normalizePt_py, normalizePt_py]
          apply mul_le_mul_of_nonneg_right _ (le_of_lt hspos)
          have hb := hyub p hp
          rw [← hyM]
          linarith)
        (by
          rw [hval2, toReal_dblMax_neg]
          have := dblMax_pos
          linarith)
    rw [h, hval2]
  have hAxmin : (bboxOf (AtlasMeshRect ny)).xMin.toReal =
      ((bboxOf (rectExtracted ny)).xMin.toReal - (bboxOf (rectExtracted ny)).xMin.toReal -
        ((bboxOf (rectExtracted ny)).xMax.toReal - (bboxOf (rectExtracted ny)).xMin.toReal)/2) *
        (180 / ((bboxOf (rectExtracted ny)).yMax.toReal -
          (bboxOf (rectExtracted ny)).yMin.toReal)) := by
    rw [bboxOf_split]
    dsimp only
    rw [hAnodes, List.foldl_map]
    have h : (((rectExtracted ny).nodes.foldl
        (fun acc p => (normalizePt (bboxOf (rectExtracted ny)) p).px.fmin acc) dblMax)).toReal
        = ((normalizePt (bboxOf (rectExtracted ny)) pxm).px).toReal :=
      fold_fmin_eq _ (fun p => (normalizePt (bboxOf (rectExtracted ny)) p).px) _ _
        hpxm
        (fun p hp => by
          rw [normalizePt_px, normalizePt_px]
          apply mul_le_mul_of_nonneg_right _ (le_of_lt hspos)
          have hb := hxlb p hp
          rw [← hxm]
          linarith)
        (by
          rw [normalizePt_px, ← hxm]
          have hlx : 0 ≤ (bboxOf (rectExtracted ny)).xMax.toReal -
              (bboxOf (rectExtracted ny)).xMin.toReal := by linarith
          have hbig := dblMax_pos
          have hle : ((bboxOf (rectExtracted ny)).xMin.toReal -
              (bboxOf (rectExtracted ny)).xMin.toReal -
              ((bboxOf (rectExtracted ny)).xMax.toReal -
                (bboxOf (rectExtracted ny)).xMin.toReal)/2) ≤ 0 := by linarith
          nlinarith)
    rw [h, normalizePt_px, ← hxm]
  have hAxmax : (bboxOf (AtlasMeshRect ny)).xMax.toReal =
      ((bboxOf (rectExtracted ny)).xMax.toReal - (bboxOf (rectExtracted ny)).xMin.toReal -
        ((bboxOf (rectExtracted ny)).xMax.toReal - (bboxOf (rectExtracted ny)).xMin.toReal)/2) *
        (180 / ((bboxOf (rectExtracted ny)).yMax.toReal -
          (bboxOf (rectExtracted ny)).yMin.toReal)) := by
    rw [bboxOf_split]
    dsimp only
    rw [hAnodes, List.foldl_map]
    have h : (((rectExtracted ny).nodes.foldl
        (fun acc p => (normalizePt (bboxOf (rectExtracted ny)) p).px.fmax acc) dblMax.neg)).toReal
        = ((normalizePt (bboxOf (rectExtracted ny)) pxM).px).toReal :=
      fold_fmax_eq _ (fun p => (normalizePt (bboxOf (rectExtracted ny)) p).px) _ _
        hpxM
        (fun p hp => by
          rw [normalizePt_px, normalizePt_px]
          apply mul_le_mul_of_nonneg_right _ (le_of_lt hspos)
          have hb := hxub p hp
          rw [← hxM]
          linarith)
        (by
          rw [normalizePt_px, ← hxM, toReal_dblMax_neg]
          have hlx : 0 ≤ (bboxOf (rectExtracted ny)).xMax.toReal -
              (bboxOf (rectExtracted ny)).xMin.toReal := by linarith
          have hbig := dblMax_pos
          have hge : 0 ≤ ((bboxOf (rectExtracted ny)).xMax.toReal -
              (bboxOf (rectExtracted ny)).xMin.toReal -
              ((bboxOf (rectExtracted ny)).xMax.toReal -
                (bboxOf (rectExtracted ny)).xMin.toReal)/2) := by linarith
          nlinarith)
    rw [h, normalizePt_px, ← hxM]
  refine ⟨by rw [hAymax, hAymin]; norm_num,
          by rw [hAxmax, hAxmin]; ring,
          by rw [hAymax, hAymin]; norm_num, ?_, ?_, ?_⟩
  · intro p hp
    refine ⟨?_, ?_, ?_, ?_⟩
    · have h := fold_fmin_le_mem (AtlasMeshRect ny).nodes (fun q => q.py) dblMax p hp
      rw [bboxOf_split]
      dsimp only
      exact h
    · have h := fold_fmax_ge_mem (AtlasMeshRect ny).nodes (fun q => q.py) dblMax.neg p hp
      rw [bboxOf_split]
      dsimp only
      exact h
    · have h := fold_fmin_le_mem (AtlasMeshRect ny).nodes (fun q => q.px) dblMax p hp
      rw [bboxOf_split]
      dsimp only
      exact h
    · have h := fold_fmax_ge_mem (AtlasMeshRect ny).nodes (fun q => q.px) dblMax.neg p hp
      rw [bboxOf_split]
      dsimp only
      exact h
  · refine ⟨normalizePt (bboxOf (rectExtracted ny)) pM, ?_, ?_⟩
    · rw [hAnodes]
      exact List.mem_map_of_mem _ hpM
    · rw [hval2, hAymax]
  · refine ⟨normalizePt (bboxOf (rectExtracted ny)) (shearNode ⟨QS3.ofInt 1, QS3.ofInt 0⟩), ?_, ?_⟩
    · rw [hAnodes]
      exact List.mem_map_of_mem _ (rect_node_one_mem ny h2)
    · rw [hval1, hAymin]

/-- C1 witness: the theorem instantiated at ny = 2. -/
theorem AtlasMeshRect_extent_centered_witness :
    2 ≤ 2 ∧
    ((bboxOf (AtlasMeshRect 2)).yMax.toReal - (bboxOf (AtlasMeshRect 2)).yMin.toReal = 180 ∧
    ((bboxOf (AtlasMeshRect 2)).xMax.toReal + (bboxOf (AtlasMeshRect 2)).xMin.toReal) / 2 = 0 ∧
    ((bboxOf (AtlasMeshRect 2)).yMax.toReal + (bboxOf (AtlasMeshRect 2)).yMin.toReal) / 2 = 0 ∧
    (∀ p ∈ (AtlasMeshRect 2).nodes,
      (bboxOf (AtlasMeshRect 2)).yMin.toReal ≤ p.py.toReal ∧
      p.py.toReal ≤ (bboxOf (AtlasMeshRect 2)).yMax.toReal ∧
      (bboxOf (AtlasMeshRect 2)).xMin.toReal ≤ p.px.toReal ∧
      p.px.toReal ≤ (bboxOf (AtlasMeshRect 2)).xMax.toReal) ∧
    (∃ p ∈ (AtlasMeshRect 2).nodes, p.py.toReal = (bboxOf (AtlasMeshRect 2)).yMax.toReal) ∧
    (∃ p ∈ (AtlasMeshRect 2).nodes, p.py.toReal = (bboxOf (AtlasMeshRect 2)).yMin.toReal)) :=
  ⟨by norm_num, AtlasMeshRect_extent_centered 2 (by norm_num)⟩

/-- C5: for every ny ≥ 2 the divisor lY = yMax - yMin computed over the
extracted submesh is strictly positive, so scale = 180/lY is never a division
by zero; for the degenerate inputs ny = 0 and ny = 1 the computed lY is
negative (the sentinel fold yields -2*DBL_MAX). -/
theorem rectLY_positive (ny : ℕ) (h2 : 2 ≤ ny) :
    0 < (rectLY ny).toReal ∧ (rectLY 0).toReal < 0 ∧ (rectLY 1).toReal < 0 := by
  refine ⟨rectLY_pos_of_two_le ny h2, ?_, ?_⟩
  · have h : (rectLY 0).blt (QS3.ofInt 0) = true := by decide
    have h2 := (QS3.blt_iff _ _).mp h
    rw [QS3.toReal_ofInt] at h2
    push_cast at h2
    exact h2
  · have h : (rectLY 1).blt (QS3.ofInt 0) = true := by decide
    have h2 := (QS3.blt_iff _ _).mp h
    rw [QS3.toReal_ofInt] at h2
    push_cast at h2
    exact h2

/-- C5 witness: the theorem instantiated at ny = 2. -/
theorem rectLY_positive_witness :
    2 ≤ 2 ∧ (0 < (rectLY 2).toReal ∧ (rectLY 0).toReal < 0 ∧ (rectLY 1).toReal < 0) :=
  ⟨by norm_num, rectLY_positive 2 (by norm_num)⟩

/-- C3: TriangleInBB is monotone in the box: for a valid cell and boxes B1
contained in B2 (B2.low ≤ B1.low and B1.high ≤ B2.high componentwise), a cell
accepted with B1 is accepted with B2 — shrinking the box can only remove
cells from the selected set, never add. -/
theorem TriangleInBB_monotone (mesh : RMesh) (cellIdx : ℕ)
    (hcell : cellIdx < mesh.cells.length)
    (lo1 hi1 lo2 hi2 : QS3 × QS3)
    (hlo1 : lo2.1.toReal ≤ lo1.1.toReal) (hlo2 : lo2.2.toReal ≤ lo1.2.toReal)
    (hhi1 : hi1.1.toReal ≤ hi2.1.toReal) (hhi2 : hi1.2.toReal ≤ hi2.2.toReal)
    (h : TriangleInBB mesh cellIdx lo1 hi1 = true) :
    TriangleInBB mesh cellIdx lo2 hi2 = true := by
  rw [TriangleInBB_iff] at h ⊢
  unfold ptInBB at h ⊢
  rcases h with h | h | h
  · exact Or.inl ⟨lt_of_le_of_lt hlo1 h.1, lt_of_le_of_lt hlo2 h.2.1,
      lt_of_lt_of_le h.2.2.1 hhi1, lt_of_lt_of_le h.2.2.2 hhi2⟩
  · exact Or.inr (Or.inl ⟨lt_of_le_of_lt hlo1 h.1, lt_of_le_of_lt hlo2 h.2.1,
      lt_of_lt_of_le h.2.2.1 hhi1, lt_of_lt_of_le h.2.2.2 hhi2⟩)
  · exact Or.inr (Or.inr ⟨lt_of_le_of_lt hlo1 h.1, lt_of_le_of_lt hlo2 h.2.1,
      lt_of_lt_of_le h.2.2.1 hhi1, lt_of_lt_of_le h.2.2.2 hhi2⟩)

/-- One-cell mesh used to instantiate the box-monotonicity theorem. -/
def monoWitnessMesh : RMesh := ⟨[⟨QS3.ofInt 1, QS3.ofInt 1⟩], [(0, 0, 0)]⟩

/-- C3 witness: the theorem instantiated at a concrete mesh and nested boxes. -/
theorem TriangleInBB_monotone_witness :
    TriangleInBB monoWitnessMesh 0
      (QS3.ofInt (-1), QS3.ofInt (-1)) (QS3.ofInt 3, QS3.ofInt 3) = true :=
  TriangleInBB_monotone monoWitnessMesh 0 (by decide)
    (QS3.ofInt 0, QS3.ofInt 0) (QS3.ofInt 2, QS3.ofInt 2)
    (QS3.ofInt (-1), QS3.ofInt (-1)) (QS3.ofInt 3, QS3.ofInt 3)
    (by rw [QS3.toReal_ofInt, QS3.toReal_ofInt]; push_cast; norm_num)
    (by rw [QS3.toReal_ofInt, QS3.toReal_ofInt]; push_cast; norm_num)
    (by rw [QS3.toReal_ofInt, QS3.toReal_ofInt]; push_cast; norm_num)
    (by rw [QS3.toReal_ofInt, QS3.toReal_ofInt]; push_cast; norm_num)
    (by decide)

/-- C4: the bounding-box normalizer is idempotent: on a mesh whose bounding-box
center is already the origin and whose y-extent is already 180, the recomputed
scale factor is 1 and re-running the normalizer changes no node coordinate
(and leaves the cells untouched). -/
theorem normalizeMesh_idempotent (m : RMesh)
    (hcx : (bboxOf m).xMin.toReal + ((bboxOf m).xMax.toReal - (bboxOf m).xMin.toReal) / 2 = 0)
    (hcy : (bboxOf m).yMin.toReal + ((bboxOf m).yMax.toReal - (bboxOf m).yMin.toReal) / 2 = 0)
    (hext : (bboxOf m).yMax.toReal - (bboxOf m).yMin.toReal = 180) :
    ((QS3.ofInt 180).div ((bboxOf m).yMax.sub (bboxOf m).yMin)).toReal = 1 ∧
    (normalizeMesh m).cells = m.cells ∧
    (normalizeMesh m).nodes.length = m.nodes.length ∧
    ∀ i, i < m.nodes.length →
      ((normalizeMesh m).nodes.getD i Pt.zero).px.toReal = (m.nodes.getD i Pt.zero).px.toReal ∧
      ((normalizeMesh m).nodes.getD i Pt.zero).py.toReal = (m.nodes.getD i Pt.zero).py.toReal := by
  have hscale : ((QS3.ofInt 180).div ((bboxOf m).yMax.sub (bboxOf m).yMin)).toReal = 1 := by
    rw [QS3.toReal_div, QS3.toReal_sub, QS3.toReal_ofInt, hext]
    push_cast
    norm_num
  refine ⟨hscale, normalizeMesh_cells m, ?_, ?_⟩
  · rw [normalizeMesh_nodes]
    simp
  · intro i hi
    have hlen : i < (m.nodes.map (normalizePt (bboxOf m))).length := by simpa using hi
    rw [normalizeMesh_nodes, List.getD_eq_getElem _ _ hlen, List.getElem_map,
      ← List.getD_eq_getElem m.nodes Pt.zero hi]
    constructor
    · rw [normalizePt_px, hext]
      norm_num
      linarith
    · rw [normalizePt_py, hext]
      norm_num
      linarith

/-- Two-node mesh, already normalized, used to instantiate the idempotence
theorem. -/
def idemWitnessMesh : RMesh :=
  ⟨[⟨QS3.ofInt 0, QS3.ofInt (-90)⟩, ⟨QS3.ofInt 0, QS3.ofInt 90⟩], [(0, 1, 0)]⟩

/-- C4 witness: the theorem instantiated at a concrete normalized mesh. -/
theorem normalizeMesh_idempotent_witness :
    ((QS3.ofInt 180).div
        ((bboxOf idemWitnessMesh).yMax.sub (bboxOf idemWitnessMesh).yMin)).toReal = 1 ∧
    (normalizeMesh idemWitnessMesh).cells = idemWitnessMesh.cells ∧
    (normalizeMesh idemWitnessMesh).nodes.length = idemWitnessMesh.nodes.length ∧
    ∀ i, i < idemWitnessMesh.nodes.length →
      ((normalizeMesh idemWitnessMesh).nodes.getD i Pt.zero).px.toReal =
        (idemWitnessMesh.nodes.getD i Pt.zero).px.toReal ∧
      ((normalizeMesh idemWitnessMesh).nodes.getD i Pt.zero).py.toReal =
        (idemWitnessMesh.nodes.getD i Pt.zero).py.toReal := by
  have hb : ∀ z : ℤ, ∀ q : QS3, q.beqv (QS3.ofInt z) = true → q.toReal = (z:ℝ) := by
    intro z q hq
    have h := (QS3.beqv_iff _ _).mp hq
    rwa [QS3.toReal_ofInt] at h
  have hxmin : (bboxOf idemWitnessMesh).xMin.toReal = ((0:ℤ):ℝ) := hb 0 _ (by decide)
  have hxmax : (bboxOf idemWitnessMesh).xMax.toReal = ((0:ℤ):ℝ) := hb 0 _ (by decide)
  have hymin : (bboxOf idemWitnessMesh).yMin.toReal = ((-90:ℤ):ℝ) := hb (-90) _ (by decide)
  have hymax : (bboxOf idemWitnessMesh).yMax.toReal = ((90:ℤ):ℝ) := hb 90 _ (by decide)
  exact normalizeMesh_idempotent idemWitnessMesh
    (by rw [hxmin, hxmax]; push_cast; norm_num)
    (by rw [hymin, hymax]; push_cast; norm_num)
    (by rw [hymin, hymax]; push_cast; norm_num)

/-! C2: equilateral triangles and the exact edge length. -/

theorem rectLo_x_toReal (ny : ℕ) : (rectLo ny).1.toReal = 0 := by
  rw [show (rectLo ny).1 = QS3.ofInt 0 from rfl, QS3.toReal_ofInt]
  norm_num

theorem rectLo_y_toReal (ny : ℕ) : (rectLo ny).2.toReal = -dblMax.toReal := toReal_dblMax_neg

theorem rectHi_y_toReal (ny : ℕ) : (rectHi ny).2.toReal = dblMax.toReal := rfl

theorem sqrt3_lt_two : Real.sqrt 3 < 2 := by
  nlinarith [sqrt3_sq, sqrt3_pos]

theorem sqDist_toReal (p q : Pt) :
    (sqDist p q).toReal = (p.px.toReal - q.px.toReal)^2 + (p.py.toReal - q.py.toReal)^2 := by
  unfold sqDist
  simp only [QS3.toReal_add, QS3.toReal_mul, QS3.toReal_sub]
  ring

theorem sqDist_normalizePt (bb : BBox) (p q : Pt) :
    (sqDist (normalizePt bb p) (normalizePt bb q)).toReal =
      (180 / (bb.yMax.toReal - bb.yMin.toReal))^2 * (sqDist p q).toReal := by
  rw [sqDist_toReal, sqDist_toReal, normalizePt_px, normalizePt_px,
    normalizePt_py, normalizePt_py]
  ring

theorem sqDist_lattice (i1 j1 i2 j2 : ℤ) :
    (sqDist (shearNode ⟨QS3.ofInt i1, QS3.ofInt j1⟩)
            (shearNode ⟨QS3.ofInt i2, QS3.ofInt j2⟩)).toReal
      = ((i1:ℝ) - i2 - ((j1:ℝ) - j2)/2)^2 + 3*((j1:ℝ) - j2)^2/4 := by
  rw [sqDist_toReal, lattice_px_val, lattice_px_val, lattice_py_val, lattice_py_val]
  linear_combination (((j1:ℝ) - j2)^2/4) * sqrt3_sq

/-- Every cell of the sheared structured mesh has all three squared edge
lengths equal to 1 (the triangles are unit equilateral before rescaling). -/
theorem rect_cell_unit_edges (ny c : ℕ) (hc : c < 2*(rectNx ny - 1)*(ny - 1)) :
    (sqDist ((rectRawMesh ny).nodes.getD ((rectRawMesh ny).cells.getD c (0,0,0)).1 Pt.zero)
            ((rectRawMesh ny).nodes.getD ((rectRawMesh ny).cells.getD c (0,0,0)).2.1 Pt.zero)).toReal = 1 ∧
    (sqDist ((rectRawMesh ny).nodes.getD ((rectRawMesh ny).cells.getD c (0,0,0)).2.1 Pt.zero)
            ((rectRawMesh ny).nodes.getD ((rectRawMesh ny).cells.getD c (0,0,0)).2.2 Pt.zero)).toReal = 1 ∧
    (sqDist ((rectRawMesh ny).nodes.getD ((rectRawMesh ny).cells.getD c (0,0,0)).1 Pt.zero)
            ((rectRawMesh ny).nodes.getD ((rectRawMesh ny).cells.getD c (0,0,0)).2.2 Pt.zero)).toReal = 1 := by
  have hprod : 0 < 2*(rectNx ny-1)*(ny-1) := lt_of_le_of_lt (Nat.zero_le _) hc
  have hnx1 : 0 < rectNx ny - 1 := by
    by_contra h0
    have hz : rectNx ny - 1 = 0 := by omega
    rw [hz] at hprod
    simp at hprod
  have hny1 : 0 < ny - 1 := by
    by_contra h0
    have hz : ny - 1 = 0 := by omega
    rw [hz] at hprod
    simp at hprod
  have hqi : c/2 % (rectNx ny-1) < rectNx ny-1 := Nat.mod_lt _ hnx1
  have hqj : c/2 / (rectNx ny-1) < ny-1 := by
    rw [Nat.div_lt_iff_lt_mul hnx1]
    have h1 : c/2 < (rectNx ny-1)*(ny-1) := by
      have hc2 := hc
      rw [Nat.mul_assoc] at hc2
      omega
    calc c/2 < (rectNx ny-1)*(ny-1) := h1
    _ = (ny-1)*(rectNx ny-1) := Nat.mul_comm _ _
  rw [rectRawMesh_cells, structuredMesh_cells_getD _ _ c hc]
  set nx := rectNx ny with hnx
  set qi := c/2 % (nx-1) with hqidef
  set qj := c/2 / (nx-1) with hqjdef
  by_cases hpar : c % 2 = 0
  · rw [if_pos hpar]
    dsimp only
    rw [rect_node_getD ny qi qj (by omega) (by omega),
      show qj*nx+qi+1 = qj*nx+(qi+1) by omega,
      rect_node_getD ny (qi+1) qj (by omega) (by omega),
      show (qj+1)*nx+qi+1 = (qj+1)*nx+(qi+1) by omega,
      rect_node_getD ny (qi+1) (qj+1) (by omega) (by omega)]
    refine ⟨?_, ?_, ?_⟩ <;>
      (rw [sqDist_lattice]; push_cast; ring_nf)
  · rw [if_neg hpar]
    dsimp only
    rw [rect_node_getD ny qi qj (by omega) (by omega),
      show (qj+1)*nx+qi+1 = (qj+1)*nx+(qi+1) by omega,
      rect_node_getD ny (qi+1) (qj+1) (by omega) (by omega),
      rect_node_getD ny qi (qj+1) (by omega) (by omega)]
    refine ⟨?_, ?_, ?_⟩ <;>
      (rw [sqDist_lattice]; push_cast; ring_nf)

/-- Index of a cell in the top quad row whose upper vertex lies strictly
inside the selection strip. -/
def topCellIdx (ny : ℕ) : ℕ := 2*((ny-2)*(rectNx ny-1) + (ny-1)/2) + 1

theorem topCell_lt (ny : ℕ) (h2 : 2 ≤ ny) : topCellIdx ny < 2*(rectNx ny-1)*(ny-1) := by
  unfold topCellIdx
  have hw : 0 < rectNx ny - 1 := by unfold rectNx; omega
  have hk : (ny-1)/2 < rectNx ny - 1 := by unfold rectNx; omega
  have hq : (ny-2)*(rectNx ny-1) + (ny-1)/2 < (ny-1)*(rectNx ny-1) := by
    have h1 : (ny-1)*(rectNx ny-1) = (ny-2)*(rectNx ny-1) + (rectNx ny-1) := by
      have h3 : ny - 1 = (ny-2) + 1 := by omega
      rw [h3, Nat.add_mul, Nat.one_mul]
    rw [h1]
    omega
  calc 2*((ny-2)*(rectNx ny-1) + (ny-1)/2) + 1 < 2*((ny-1)*(rectNx ny-1)) := by omega
  _ = 2*(rectNx ny-1)*(ny-1) := by ring

theorem topCell_decode (ny : ℕ) (h2 : 2 ≤ ny) :
    (rectRawMesh ny).cells.getD (topCellIdx ny) (0,0,0) =
      ((ny-2)*(rectNx ny) + (ny-1)/2,
       (ny-1)*(rectNx ny) + ((ny-1)/2+1),
       (ny-1)*(rectNx ny) + (ny-1)/2) := by
  have hc := topCell_lt ny h2
  rw [rectRawMesh_cells, structuredMesh_cells_getD _ _ _ hc]
  have hodd : ¬ (topCellIdx ny % 2 = 0) := by unfold topCellIdx; omega
  rw [if_neg hodd]
  have hq2 : topCellIdx ny / 2 = (ny-2)*(rectNx ny-1) + (ny-1)/2 := by
    unfold topCellIdx
    omega
  have hk : (ny-1)/2 < rectNx ny-1 := by unfold rectNx; omega
  have hqi : topCellIdx ny / 2 % (rectNx ny-1) = (ny-1)/2 := by
    rw [hq2]
    exact (quadId_decode _ _ _ hk).1
  have hqj : topCellIdx ny / 2 / (rectNx ny-1) = ny-2 := by
    rw [hq2]
    exact (quadId_decode _ _ _ hk).2
  rw [hqi, hqj]
  have h3 : ny - 2 + 1 = ny - 1 := by omega
  rw [h3]
  have h4 : (ny-1)*(rectNx ny) + (ny-1)/2 + 1 = (ny-1)*(rectNx ny) + ((ny-1)/2+1) := by
    omega
  rw [h4]

/-- The top-row witness node: (ny-1)/2+1 steps right in the top node row. -/
theorem topNode_px_bounds (ny : ℕ) (h2 : 2 ≤ ny) :
    (1:ℝ)/2 ≤ (((((ny-1)/2+1 : ℕ)):ℤ):ℝ) - ((((ny-1 : ℕ)):ℤ):ℝ)/2 ∧
    (((((ny-1)/2+1 : ℕ)):ℤ):ℝ) - ((((ny-1 : ℕ)):ℤ):ℝ)/2 ≤ 1 := by
  have ha : 2*((ny-1)/2) ≤ ny-1 := by omega
  have hb : ny-1 ≤ 2*((ny-1)/2)+1 := by omega
  have har : 2*((((ny-1)/2 : ℕ)):ℝ) ≤ (((ny-1 : ℕ)):ℝ) := by exact_mod_cast ha
  have hbr : (((ny-1 : ℕ)):ℝ) ≤ 2*((((ny-1)/2 : ℕ)):ℝ)+1 := by exact_mod_cast hb
  have hc1 : (((((ny-1)/2+1 : ℕ)):ℤ):ℝ) = ((((ny-1)/2+1 : ℕ)):ℝ) := Int.cast_natCast _
  have hc2 : ((((ny-1 : ℕ)):ℤ):ℝ) = (((ny-1 : ℕ)):ℝ) := Int.cast_natCast _
  rw [hc1, hc2]
  have hc3 : ((((ny-1)/2+1 : ℕ)):ℝ) = ((((ny-1)/2 : ℕ)):ℝ) + 1 := by push_cast; ring
  rw [hc3]
  constructor
  · linarith
  · linarith

theorem topCell_mem_rectKeep (ny : ℕ) (h2 : 2 ≤ ny) (hub : ny ≤ 715827882) :
    topCellIdx ny ∈ rectKeep ny := by
  rw [rectKeep_mem]
  refine ⟨topCell_lt ny h2, ?_⟩
  rw [TriangleInBB_iff, topCell_decode ny h2]
  right; left
  have hnode : (rectRawMesh ny).nodes.getD ((ny-1)*(rectNx ny) + ((ny-1)/2+1)) Pt.zero =
      shearNode ⟨QS3.ofInt (((ny-1)/2+1 : ℕ) : ℤ), QS3.ofInt ((ny-1 : ℕ) : ℤ)⟩ :=
    rect_node_getD ny ((ny-1)/2+1) (ny-1) (by unfold rectNx; omega) (by omega)
  dsimp only
  rw [hnode]
  unfold ptInBB
  rw [lattice_px_val, lattice_py_val, rectLo_x_toReal, rectLo_y_toReal, rectHi_y_toReal]
  obtain ⟨hpx1, hpx2⟩ := topNode_px_bounds ny h2
  have hbig := dblMax_big
  have hpos := dblMax_pos
  have hhi := rectHi_gt_one ny h2
  have hs3 := sqrt3_pos
  have hslt := sqrt3_lt_two
  have hnyr : (((ny-1 : ℕ)):ℝ) ≤ 715827881 := by
    have h1 : (ny-1 : ℕ) ≤ 715827881 := by omega
    exact_mod_cast h1
  have hc2 : ((((ny-1 : ℕ)):ℤ):ℝ) = (((ny-1 : ℕ)):ℝ) := Int.cast_natCast _
  refine ⟨by linarith, ?_, by linarith, ?_⟩
  · have h0 : (0:ℝ) ≤ ((((ny-1:ℕ)):ℤ):ℝ) * Real.sqrt 3 / 2 := by positivity
    linarith
  · rw [hc2]
    have hmul : (((ny-1:ℕ)):ℝ) * Real.sqrt 3 ≤ 715827881 * 2 :=
      mul_le_mul hnyr (le_of_lt hslt) (le_of_lt hs3) (by norm_num)
    linarith

/-- For ny in the int range, the extracted submesh reaches the top node row, so
yMax is exactly (ny-1)*sqrt(3)/2. -/
theorem rect_yMax_eq (ny : ℕ) (h2 : 2 ≤ ny) (hub : ny ≤ 715827882) :
    (bboxOf (rectExtracted ny)).yMax.toReal = (((ny-1):ℕ):ℝ) * Real.sqrt 3 / 2 := by
  have hid : ((ny-1)*(rectNx ny) + ((ny-1)/2+1) : ℕ) ∈
      extractNodeIds (rectRawMesh ny) (rectKeep ny) := by
    rw [extractNodeIds_mem]
    refine ⟨topCellIdx ny, topCell_mem_rectKeep ny h2 hub, ?_⟩
    rw [topCell_decode ny h2]
    right; left
    rfl
  have hmem := extracted_node_of_id (rectRawMesh ny) (rectKeep ny) _ hid
  have hnode : (rectRawMesh ny).nodes.getD ((ny-1)*(rectNx ny) + ((ny-1)/2+1)) Pt.zero =
      shearNode ⟨QS3.ofInt (((ny-1)/2+1 : ℕ) : ℤ), QS3.ofInt ((ny-1 : ℕ) : ℤ)⟩ :=
    rect_node_getD ny ((ny-1)/2+1) (ny-1) (by unfold rectNx; omega) (by omega)
  rw [hnode] at hmem
  rw [bboxOf_split]
  dsimp only
  have h : (((rectExtracted ny).nodes.foldl (fun acc p => p.py.fmax acc) dblMax.neg)).toReal
      = ((shearNode ⟨QS3.ofInt (((ny-1)/2+1 : ℕ) : ℤ),
          QS3.ofInt ((ny-1 : ℕ) : ℤ)⟩).py).toReal :=
    fold_fmax_eq _ (fun p => p.py) _ _ hmem
      (fun p hp => by
        have hb := (rect_node_bounds ny p hp).2
        rw [lattice_py_val]
        have h1 : 1 ≤ ny := by omega
        have hcast : ((((ny-1:ℕ)):ℤ):ℝ) = (ny:ℝ) - 1 := by
          rw [Int.cast_natCast, Nat.cast_sub h1, Nat.cast_one]
        rw [hcast]
        linarith)
      (by
        rw [lattice_py_val, toReal_dblMax_neg]
        have hpos := dblMax_pos
        have h0 : (0:ℝ) ≤ ((((ny-1:ℕ)):ℤ):ℝ) * Real.sqrt 3 / 2 := by positivity
        linarith)
  rw [h, lattice_py_val]
  push_cast
  ring

theorem rectExtracted_cells_length (ny : ℕ) :
    (rectExtracted ny).cells.length = (rectKeep ny).length :=
  extracted_cells_length _ _

theorem rectExtracted_nodes_getD (ny : ℕ) (v : ℕ)
    (hv : v ∈ extractNodeIds (rectRawMesh ny) (rectKeep ny)) :
    (rectExtracted ny).nodes.getD
        ((extractNodeIds (rectRawMesh ny) (rectKeep ny)).indexOf v) Pt.zero
      = (rectRawMesh ny).nodes.getD v Pt.zero :=
  extracted_nodes_getD _ _ _ hv

theorem rect_final_nodes_getD (ny : ℕ) (i : ℕ) (hi : i < (rectExtracted ny).nodes.length) :
    (AtlasMeshRect ny).nodes.getD i Pt.zero =
      normalizePt (bboxOf (rectExtracted ny)) ((rectExtracted ny).nodes.getD i Pt.zero) := by
  have hA : (AtlasMeshRect ny).nodes =
      (rectExtracted ny).nodes.map (normalizePt (bboxOf (rectExtracted ny))) :=
    normalizeMesh_nodes (rectExtracted ny)
  rw [hA, List.getD_eq_getElem _ _ (by simpa using hi), List.getElem_map,
    ← List.getD_eq_getElem _ Pt.zero hi]

/-- C2 (amended): for every ny ≥ 2 in the int range of the source (3*ny below
2^31), every triangle cell of AtlasMeshRect(ny) is equilateral: its three
pairwise squared vertex distances are equal, with common value
43200/(ny-1)^2 — an edge length of 360/(√3·(ny-1)) = 120·√3/(ny-1), not
180/(ny-1). -/
theorem AtlasMeshRect_equilateral (ny : ℕ) (h2 : 2 ≤ ny) (hub : ny ≤ 715827882)
    (k : ℕ) (hk : k < (AtlasMeshRect ny).cells.length) :
    (sqDist ((AtlasMeshRect ny).nodes.getD ((AtlasMeshRect ny).cells.getD k (0,0,0)).1 Pt.zero)
        ((AtlasMeshRect ny).nodes.getD ((AtlasMeshRect ny).cells.getD k (0,0,0)).2.1 Pt.zero)).toReal
      = 43200 / ((ny:ℝ)-1)^2 ∧
    (sqDist ((AtlasMeshRect ny).nodes.getD ((AtlasMeshRect ny).cells.getD k (0,0,0)).2.1 Pt.zero)
        ((AtlasMeshRect ny).nodes.getD ((AtlasMeshRect ny).cells.getD k (0,0,0)).2.2 Pt.zero)).toReal
      = 43200 / ((ny:ℝ)-1)^2 ∧
    (sqDist ((AtlasMeshRect ny).nodes.getD ((AtlasMeshRect ny).cells.getD k (0,0,0)).1 Pt.zero)
        ((AtlasMeshRect ny).nodes.getD ((AtlasMeshRect ny).cells.getD k (0,0,0)).2.2 Pt.zero)).toReal
      = 43200 / ((ny:ℝ)-1)^2 := by
  have hAcells : (AtlasMeshRect ny).cells = (rectExtracted ny).cells := normalizeMesh_cells _
  have hkk : k < (rectKeep ny).length := by
    rw [hAcells, rectExtracted_cells_length] at hk
    exact hk
  set c := (rectKeep ny).getD k 0 with hcdef
  have hcmem : c ∈ rectKeep ny := keep_getD_mem _ _ hkk
  have hcbound : c < 2*(rectNx ny-1)*(ny-1) := ((rectKeep_mem ny c).mp hcmem).1
  have ht : (AtlasMeshRect ny).cells.getD k (0,0,0) =
      ((extractNodeIds (rectRawMesh ny) (rectKeep ny)).indexOf
          ((rectRawMesh ny).cells.getD c (0,0,0)).1,
       (extractNodeIds (rectRawMesh ny) (rectKeep ny)).indexOf
          ((rectRawMesh ny).cells.getD c (0,0,0)).2.1,
       (extractNodeIds (rectRawMesh ny) (rectKeep ny)).indexOf
          ((rectRawMesh ny).cells.getD c (0,0,0)).2.2) := by
    rw [hAcells]
    exact extracted_cells_getD _ _ k hkk
  have hv1 : ((rectRawMesh ny).cells.getD c (0,0,0)).1 ∈
      extractNodeIds (rectRawMesh ny) (rectKeep ny) := by
    rw [extractNodeIds_mem]
    exact ⟨c, hcmem, Or.inl rfl⟩
  have hv2 : ((rectRawMesh ny).cells.getD c (0,0,0)).2.1 ∈
      extractNodeIds (rectRawMesh ny) (rectKeep ny) := by
    rw [extractNodeIds_mem]
    exact ⟨c, hcmem, Or.inr (Or.inl rfl)⟩
  have hv3 : ((rectRawMesh ny).cells.getD c (0,0,0)).2.2 ∈
      extractNodeIds (rectRawMesh ny) (rectKeep ny) := by
    rw [extractNodeIds_mem]
    exact ⟨c, hcmem, Or.inr (Or.inr rfl)⟩
  have hn1 : (AtlasMeshRect ny).nodes.getD
      ((extractNodeIds (rectRawMesh ny) (rectKeep ny)).indexOf
        ((rectRawMesh ny).cells.getD c (0,0,0)).1) Pt.zero =
      normalizePt (bboxOf (rectExtracted ny))
        ((rectRawMesh ny).nodes.getD ((rectRawMesh ny).cells.getD c (0,0,0)).1 Pt.zero) := by
    rw [rect_final_nodes_getD ny _ (extracted_indexOf_lt _ _ _ hv1),
      rectExtracted_nodes_getD ny _ hv1]
  have hn2 : (AtlasMeshRect ny).nodes.getD
      ((extractNodeIds (rectRawMesh ny) (rectKeep ny)).indexOf
        ((rectRawMesh ny).cells.getD c (0,0,0)).2.1) Pt.zero =
      normalizePt (bboxOf (rectExtracted ny))
        ((rectRawMesh ny).nodes.getD ((rectRawMesh ny).cells.getD c (0,0,0)).2.1 Pt.zero) := by
    rw [rect_final_nodes_getD ny _ (extracted_indexOf_lt _ _ _ hv2),
      rectExtracted_nodes_getD ny _ hv2]
  have hn3 : (AtlasMeshRect ny).nodes.getD
      ((extractNodeIds (rectRawMesh ny) (rectKeep ny)).indexOf
        ((rectRawMesh ny).cells.getD c (0,0,0)).2.2) Pt.zero =
      normalizePt (bboxOf (rectExtracted ny))
        ((rectRawMesh ny).nodes.getD ((rectRawMesh ny).cells.getD c (0,0,0)).2.2 Pt.zero) := by
    rw [rect_final_nodes_getD ny _ (extracted_indexOf_lt _ _ _ hv3),
      rectExtracted_nodes_getD ny _ hv3]
  have h1 : 1 ≤ ny := by omega
  have hnm1pos : (0:ℝ) < (ny:ℝ) - 1 := by
    have hc2 : (2:ℝ) ≤ (ny:ℝ) := by exact_mod_cast h2
    linarith
  have hsval : (180 / ((bboxOf (rectExtracted ny)).yMax.toReal -
      (bboxOf (rectExtracted ny)).yMin.toReal))^2 = 43200 / ((ny:ℝ)-1)^2 := by
    rw [rect_yMax_eq ny h2 hub, rect_yMin_eq ny h2, sub_zero]
    rw [show (((ny-1:ℕ)):ℝ) = (ny:ℝ) - 1 by rw [Nat.cast_sub h1, Nat.cast_one]]
    have hane : ((ny:ℝ)-1) ≠ 0 := ne_of_gt hnm1pos
    have hsq : (((ny:ℝ)-1) * Real.sqrt 3 / 2)^2 = ((ny:ℝ)-1)^2 * 3 / 4 := by
      rw [div_pow, mul_pow, Real.sq_sqrt (by norm_num : (0:ℝ) ≤ 3)]
      norm_num
    rw [div_pow, hsq]
    rw [div_eq_div_iff (by positivity) (by positivity)]
    ring
  obtain ⟨he1, he2, he3⟩ := rect_cell_unit_edges ny c hcbound
  rw [ht]
  dsimp only
  rw [hn1, hn2, hn3]
  refine ⟨?_, ?_, ?_⟩
  · rw [sqDist_normalizePt, he1, mul_one, hsval]
  · rw [sqDist_normalizePt, he2, mul_one, hsval]
  · rw [sqDist_normalizePt, he3, mul_one, hsval]

/-- C2 witness: the amended theorem instantiated at ny = 2, cell 0. -/
theorem AtlasMeshRect_equilateral_witness :
    2 ≤ 2 ∧ 2 ≤ 715827882 ∧ 0 < (AtlasMeshRect 2).cells.length ∧
    ((sqDist ((AtlasMeshRect 2).nodes.getD ((AtlasMeshRect 2).cells.getD 0 (0,0,0)).1 Pt.zero)
        ((AtlasMeshRect 2).nodes.getD ((AtlasMeshRect 2).cells.getD 0 (0,0,0)).2.1 Pt.zero)).toReal
      = 43200 / ((2:ℝ)-1)^2 ∧
    (sqDist ((AtlasMeshRect 2).nodes.getD ((AtlasMeshRect 2).cells.getD 0 (0,0,0)).2.1 Pt.zero)
        ((AtlasMeshRect 2).nodes.getD ((AtlasMeshRect 2).cells.getD 0 (0,0,0)).2.2 Pt.zero)).toReal
      = 43200 / ((2:ℝ)-1)^2 ∧
    (sqDist ((AtlasMeshRect 2).nodes.getD ((AtlasMeshRect 2).cells.getD 0 (0,0,0)).1 Pt.zero)
        ((AtlasMeshRect 2).nodes.getD ((AtlasMeshRect 2).cells.getD 0 (0,0,0)).2.2 Pt.zero)).toReal
      = 43200 / ((2:ℝ)-1)^2) :=
  ⟨by norm_num, by norm_num, by decide,
    by
      have h := AtlasMeshRect_equilateral 2 (by norm_num) (by norm_num) 0 (by decide)
      push_cast at h
      exact h⟩

/-- C2 counterexample: at ny = 2 the first edge of cell 0 of AtlasMeshRect(2)
has squared length 43200, which differs from (180/(2-1))^2 = 32400 — so the
edge length is not 180/(ny-1). -/
theorem AtlasMeshRect_edge_not_180 :
    (sqDist ((AtlasMeshRect 2).nodes.getD ((AtlasMeshRect 2).cells.getD 0 (0,0,0)).1 Pt.zero)
        ((AtlasMeshRect 2).nodes.getD ((AtlasMeshRect 2).cells.getD 0 (0,0,0)).2.1 Pt.zero)).toReal
      = 43200 ∧
    (sqDist ((AtlasMeshRect 2).nodes.getD ((AtlasMeshRect 2).cells.getD 0 (0,0,0)).1 Pt.zero)
        ((AtlasMeshRect 2).nodes.getD ((AtlasMeshRect 2).cells.getD 0 (0,0,0)).2.1 Pt.zero)).toReal
      ≠ (180 / ((2:ℝ)-1))^2 := by
  have hb : (sqDist ((AtlasMeshRect 2).nodes.getD
        ((AtlasMeshRect 2).cells.getD 0 (0,0,0)).1 Pt.zero)
      ((AtlasMeshRect 2).nodes.getD
        ((AtlasMeshRect 2).cells.getD 0 (0,0,0)).2.1 Pt.zero)).beqv (QS3.ofInt 43200) = true := by
    decide
  have h := (QS3.beqv_iff _ _).mp hb
  rw [QS3.toReal_ofInt] at h
  push_cast at h
  refine ⟨h, ?_⟩
  rw [h]
  norm_num

/-! Importer lemmas. -/

theorem nodesFromNetCDF_some (f : NcFile) (m : AMesh) (h : NodesFromNetCDF f = some m) :
    m.lonlat = List.zipWith (fun lo la => (radToLon lo, radToLat la))
      (LoadField f ("vlon")) (LoadField f ("vlat")) ∧
    (LoadField f ("vlon")).length = (LoadField f ("vlat")).length ∧
    m.edges = none := by
  unfold NodesFromNetCDF at h
  by_cases h1 : (LoadField f ("vlon")).length = 0 ∨ (LoadField f ("vlat")).length = 0
  · rw [if_pos h1] at h
    cases h
  · rw [if_neg h1] at h
    by_cases h2 : (LoadField f ("vlon")).length ≠ (LoadField f ("vlat")).length
    · rw [if_pos h2] at h
      cases h
    · rw [if_neg h2] at h
      injection h with h'
      subst h'
      push_neg at h2
      exact ⟨rfl, h2, rfl⟩

theorem cellsFromNetCDF_some (f : NcFile) (mesh m : AMesh)
    (h : CellsFromNetCDF f mesh = some m) :
    m.lonlat = mesh.lonlat ∧ m.nodeGlbIdx = mesh.nodeGlbIdx ∧
    m.nodeRemoteIdx = mesh.nodeRemoteIdx ∧ m.nodePart = mesh.nodePart ∧
    m.nodeGhost = mesh.nodeGhost ∧ m.edges = mesh.edges ∧
    (Load2DField f ("vertex_of_cell")).2.1 = 3 ∧
    m.cellToNode = (List.range (Load2DField f ("vertex_of_cell")).2.2).map (fun cellIdx =>
        ((Load2DField f ("vertex_of_cell")).1.getD
            (0*(Load2DField f ("vertex_of_cell")).2.2 + cellIdx) 0 - 1,
         (Load2DField f ("vertex_of_cell")).1.getD
            (1*(Load2DField f ("vertex_of_cell")).2.2 + cellIdx) 0 - 1,
         (Load2DField f ("vertex_of_cell")).1.getD
            (2*(Load2DField f ("vertex_of_cell")).2.2 + cellIdx) 0 - 1)) := by
  unfold CellsFromNetCDF at h
  dsimp only at h
  by_cases h1 : (Load2DField f ("vertex_of_cell")).2.1 ≠ 3
  · rw [if_pos h1] at h
    cases h
  · rw [if_neg h1] at h
    injection h with h'
    subst h'
    push_neg at h1
    exact ⟨rfl, rfl, rfl, rfl, rfl, rfl, h1, rfl⟩

theorem minimal_some (f : NcFile) (m : AMesh) (h : AtlasMeshFromNetCDFMinimal f = some m) :
    ∃ mesh, NodesFromNetCDF f = some mesh ∧ CellsFromNetCDF f mesh = some m := by
  unfold AtlasMeshFromNetCDFMinimal at h
  cases hn : NodesFromNetCDF f with
  | none => rw [hn] at h; cases h
  | some mesh => rw [hn] at h; exact ⟨mesh, rfl, h⟩

theorem minimal_edges_none (f : NcFile) (m : AMesh)
    (h : AtlasMeshFromNetCDFMinimal f = some m) : m.edges = none := by
  obtain ⟨mesh, hn, hc⟩ := minimal_some f m h
  obtain ⟨_, _, he⟩ := nodesFromNetCDF_some f mesh hn
  obtain ⟨_, _, _, _, _, he2, _, _⟩ := cellsFromNetCDF_some f mesh m hc
  rw [he2, he]

/-- C6: for every file the minimal importer accepts, node coordinates are
converted from radians to degrees by lon = rad/π*180 and lat = rad/(π/2)*90,
and every index read from the connectivity variable vertex_of_cell (read
column-major) is converted from 1-based to 0-based by subtracting 1. -/
theorem minimal_conversions (f : NcFile) (m : AMesh)
    (h : AtlasMeshFromNetCDFMinimal f = some m) :
    (∀ i, i < m.lonlat.length →
      m.lonlat.getD i (0, 0) =
        (((LoadField f ("vlon")).getD i 0 : ℝ) / Real.pi * 180,
         ((LoadField f ("vlat")).getD i 0 : ℝ) / (Real.pi / 2) * 90)) ∧
    (∀ cIdx, cIdx < m.cellToNode.length →
      m.cellToNode.getD cIdx (0,0,0) =
        ((Load2DField f ("vertex_of_cell")).1.getD
            (0*(Load2DField f ("vertex_of_cell")).2.2 + cIdx) 0 - 1,
         (Load2DField f ("vertex_of_cell")).1.getD
            (1*(Load2DField f ("vertex_of_cell")).2.2 + cIdx) 0 - 1,
         (Load2DField f ("vertex_of_cell")).1.getD
            (2*(Load2DField f ("vertex_of_cell")).2.2 + cIdx) 0 - 1)) := by
  obtain ⟨mesh, hn, hc⟩ := minimal_some f m h
  obtain ⟨hlonlat, hlen, _⟩ := nodesFromNetCDF_some f mesh hn
  obtain ⟨hll, _, _, _, _, _, _, hcell⟩ := cellsFromNetCDF_some f mesh m hc
  constructor
  · intro i hi
    rw [hll, hlonlat] at hi ⊢
    have hi1 : i < (LoadField f ("vlon")).length := by
      rw [List.length_zipWith] at hi
      omega
    have hi2 : i < (LoadField f ("vlat")).length := by
      rw [List.length_zipWith] at hi
      omega
    rw [List.getD_eq_getElem _ _ hi, List.getElem_zipWith,
      List.getD_eq_getElem _ _ hi1, List.getD_eq_getElem _ _ hi2]
    unfold radToLon radToLat
    refine congrArg₂ Prod.mk rfl ?_
    have hpi := Real.pi_ne_zero
    field_simp
    ring
  · intro cIdx hc2
    rw [hcell] at hc2 ⊢
    have hc3 : cIdx < (Load2DField f ("vertex_of_cell")).2.2 := by
      simpa using hc2
    rw [List.getD_eq_getElem _ _ hc2, List.getElem_map, List.getElem_range]

/-- Example file carrying only the minimal variables. -/
def exFileMin : NcFile :=
  ⟨[(("vlon"), [0]), (("vlat"), [0])], [(("vertex_of_cell"), (3, 1, [1, 1, 1]))]⟩

/-- The mesh the minimal importer builds from exFileMin. -/
noncomputable def exMinimalMesh : AMesh :=
  { lonlat := [(radToLon 0, radToLat 0)]
    nodeGlbIdx := [0]
    nodeRemoteIdx := [0]
    nodePart := [defaultPartition]
    nodeGhost := [false]
    cellGlbIdx := [0]
    cellPart := [defaultPartition]
    cellToNode := [(0, 0, 0)]
    edges := none }

/-- C6 witness: the theorem instantiated at a concrete accepted file. -/
theorem minimal_conversions_witness :
    AtlasMeshFromNetCDFMinimal exFileMin = some exMinimalMesh ∧
    ((∀ i, i < exMinimalMesh.lonlat.length →
      exMinimalMesh.lonlat.getD i (0, 0) =
        (((LoadField exFileMin ("vlon")).getD i 0 : ℝ) / Real.pi * 180,
         ((LoadField exFileMin ("vlat")).getD i 0 : ℝ) / (Real.pi / 2) * 90)) ∧
    (∀ cIdx, cIdx < exMinimalMesh.cellToNode.length →
      exMinimalMesh.cellToNode.getD cIdx (0,0,0) =
        ((Load2DField exFileMin ("vertex_of_cell")).1.getD
            (0*(Load2DField exFileMin ("vertex_of_cell")).2.2 + cIdx) 0 - 1,
         (Load2DField exFileMin ("vertex_of_cell")).1.getD
            (1*(Load2DField exFileMin ("vertex_of_cell")).2.2 + cIdx) 0 - 1,
         (Load2DField exFileMin ("vertex_of_cell")).1.getD
            (2*(Load2DField exFileMin ("vertex_of_cell")).2.2 + cIdx) 0 - 1))) := by
  have hfile : AtlasMeshFromNetCDFMinimal exFileMin = some exMinimalMesh := rfl
  exact ⟨hfile, minimal_conversions exFileMin exMinimalMesh hfile⟩

theorem addNeighborList_none_of_missing (f : NcFile) (name : String) (exp : ℕ)
    (tbl : List (List ℤ)) (h : f.vars2.lookup name = none) (hexp : exp ≠ 0) :
    AddNeighborList f name exp tbl = none := by
  unfold AddNeighborList Load2DField
  rw [h]
  dsimp only
  rw [if_pos (Ne.symm hexp)]

/-- C7 (amended): a file missing any one of the five neighbor-table variables
makes AtlasMeshFromNetCDFComplete return the absent result — the empty load
fails the neighbors-per-element check — rather than a mesh. -/
theorem complete_none_of_missing_nbh (f : NcFile)
    (h : f.vars2.lookup ("adjacent_cell_of_edge") = none ∨
         f.vars2.lookup ("edge_vertices") = none ∨
         f.vars2.lookup ("cells_of_vertex") = none ∨
         f.vars2.lookup ("edges_of_vertex") = none ∨
         f.vars2.lookup ("edge_of_cell") = none) :
    AtlasMeshFromNetCDFComplete f = none := by
  unfold AtlasMeshFromNetCDFComplete
  cases hmin : AtlasMeshFromNetCDFMinimal f with
  | none => rfl
  | some mesh =>
    dsimp only
    by_cases hedge : (LoadField f ("edge_index")).length = 0 ∧ (LoadField f ("elat")).length = 0
    · rw [if_pos hedge]
    · rw [if_neg hedge]
      rcases h with h | h | h | h | h
      · rw [addNeighborList_none_of_missing f _ 2 _ h (by norm_num)]
      · split
        · rfl
        · rw [addNeighborList_none_of_missing f _ 2 _ h (by norm_num)]
      · split
        · rfl
        · split
          · rfl
          · rw [addNeighborList_none_of_missing f _ 6 _ h (by norm_num)]
      · split
        · rfl
        · split
          · rfl
          · split
            · rfl
            · rw [addNeighborList_none_of_missing f _ 6 _ h (by norm_num)]
      · split
        · rfl
        · split
          · rfl
          · split
            · rfl
            · split
              · rfl
              · rw [addNeighborList_none_of_missing f _ 3 _ h (by norm_num)]

/-- Example file with the minimal variables and edge data (elat) but none of
the neighbor tables. -/
def exFileEdgesOnly : NcFile :=
  ⟨[(("vlon"), [0]), (("vlat"), [0]), (("elat"), [0])],
   [(("vertex_of_cell"), (3, 1, [1, 1, 1]))]⟩

/-- C7 counterexample: this file has edge data but misses the neighbor-table
variables; the complete importer returns the absent result even though the
minimal importer accepts the same file, refuting "still returns a mesh". -/
theorem complete_missing_nbh_counterexample :
    AtlasMeshFromNetCDFComplete exFileEdgesOnly = none ∧
    (AtlasMeshFromNetCDFMinimal exFileEdgesOnly).isSome = true := ⟨rfl, rfl⟩

/-- C7 witness: the amended theorem instantiated at the concrete file. -/
theorem complete_none_of_missing_nbh_witness :
    exFileEdgesOnly.vars2.lookup ("adjacent_cell_of_edge") = none ∧
    AtlasMeshFromNetCDFComplete exFileEdgesOnly = none :=
  ⟨by decide, complete_none_of_missing_nbh exFileEdgesOnly (Or.inl (by decide))⟩

/-- C8: for every file with valid vlon/vlat and triangular vertex_of_cell but
neither an edge_index nor an elat variable, the complete importer returns the
absent result while the minimal importer returns a mesh. -/
theorem complete_none_minimal_some (f : NcFile)
    (he1 : (LoadField f ("edge_index")).length = 0)
    (he2 : (LoadField f ("elat")).length = 0)
    (hlon : (LoadField f ("vlon")).length ≠ 0)
    (hlat : (LoadField f ("vlat")).length ≠ 0)
    (hlen : (LoadField f ("vlon")).length = (LoadField f ("vlat")).length)
    (htri : (Load2DField f ("vertex_of_cell")).2.1 = 3) :
    AtlasMeshFromNetCDFComplete f = none ∧
    (AtlasMeshFromNetCDFMinimal f).isSome = true := by
  have hmin : (AtlasMeshFromNetCDFMinimal f).isSome = true := by
    unfold AtlasMeshFromNetCDFMinimal NodesFromNetCDF
    rw [if_neg (by push_neg; exact ⟨hlon, hlat⟩), if_neg (by simp [hlen])]
    dsimp only
    unfold CellsFromNetCDF
    dsimp only
    rw [if_neg (by simp [htri])]
    rfl
  refine ⟨?_, hmin⟩
  unfold AtlasMeshFromNetCDFComplete
  cases hm : AtlasMeshFromNetCDFMinimal f with
  | none => rfl
  | some mesh =>
    dsimp only
    rw [if_pos ⟨he1, he2⟩]

/-- C8 witness: the theorem instantiated at the concrete minimal-only file. -/
theorem complete_none_minimal_some_witness :
    AtlasMeshFromNetCDFComplete exFileMin = none ∧
    (AtlasMeshFromNetCDFMinimal exFileMin).isSome = true :=
  complete_none_minimal_some exFileMin (by decide) (by decide) (by decide) (by decide)
    (by decide) (by decide)

/-- C9: whenever the complete importer returns a mesh, its node coordinates,
node global/remote indices, partitions, ghost flags, cell global indices and
partitions, and cell-to-node connectivity are exactly those of the mesh the
minimal importer returns on the same file; the complete importer only adds
the edge block on top. -/
theorem complete_refines_minimal (f : NcFile) (m : AMesh)
    (h : AtlasMeshFromNetCDFComplete f = some m) :
    ∃ m0, AtlasMeshFromNetCDFMinimal f = some m0 ∧
      m.lonlat = m0.lonlat ∧ m.nodeGlbIdx = m0.nodeGlbIdx ∧
      m.nodeRemoteIdx = m0.nodeRemoteIdx ∧ m.nodePart = m0.nodePart ∧
      m.nodeGhost = m0.nodeGhost ∧ m.cellGlbIdx = m0.cellGlbIdx ∧
      m.cellPart = m0.cellPart ∧ m.cellToNode = m0.cellToNode ∧
      m0.edges = none ∧ m.edges.isSome = true := by
  unfold AtlasMeshFromNetCDFComplete at h
  cases hm : AtlasMeshFromNetCDFMinimal f with
  | none =>
    rw [hm] at h
    cases h
  | some mesh =>
    rw [hm] at h
    dsimp only at h
    by_cases hedge : (LoadField f ("edge_index")).length = 0 ∧ (LoadField f ("elat")).length = 0
    · rw [if_pos hedge] at h
      cases h
    · rw [if_neg hedge] at h
      split at h
      · cases h
      · split at h
        · cases h
        · split at h
          · cases h
          · split at h
            · cases h
            · split at h
              · cases h
              · injection h with h'
                subst h'
                exact ⟨mesh, rfl, rfl, rfl, rfl, rfl, rfl, rfl, rfl, rfl,
                  minimal_edges_none f mesh hm, rfl⟩

/-- Example file with all variables needed by the complete importer. -/
def exFileFull : NcFile :=
  ⟨[(("vlon"), [0]), (("vlat"), [0]), (("elat"), [0])],
   [(("vertex_of_cell"), (3, 1, [1, 1, 1])),
    (("adjacent_cell_of_edge"), (2, 1, [1, 1])),
    (("edge_vertices"), (2, 1, [1, 1])),
    (("cells_of_vertex"), (6, 1, [1, 1, 1, 1, 1, 1])),
    (("edges_of_vertex"), (6, 1, [1, 1, 1, 1, 1, 1])),
    (("edge_of_cell"), (3, 1, [1, 1, 1]))]⟩

/-- The mesh the complete importer builds from exFileFull. -/
noncomputable def exFullMesh : AMesh :=
  { exMinimalMesh with
    edges := some ⟨1, [[0, 0]], [[0, 0]], [[0, 0, 0, 0, 0, 0]],
      [[0, 0, 0, 0, 0, 0]], [[0, 0, 0]]⟩ }

/-- C9 witness: the theorem instantiated at a concrete file the complete
importer accepts. -/
theorem complete_refines_minimal_witness :
    AtlasMeshFromNetCDFComplete exFileFull = some exFullMesh ∧
    (∃ m0, AtlasMeshFromNetCDFMinimal exFileFull = some m0 ∧
      exFullMesh.lonlat = m0.lonlat ∧ exFullMesh.nodeGlbIdx = m0.nodeGlbIdx ∧
      exFullMesh.nodeRemoteIdx = m0.nodeRemoteIdx ∧ exFullMesh.nodePart = m0.nodePart ∧
      exFullMesh.nodeGhost = m0.nodeGhost ∧ exFullMesh.cellGlbIdx = m0.cellGlbIdx ∧
      exFullMesh.cellPart = m0.cellPart ∧ exFullMesh.cellToNode = m0.cellToNode ∧
      m0.edges = none ∧ exFullMesh.edges.isSome = true) := by
  have hfull : AtlasMeshFromNetCDFComplete exFileFull = some exFullMesh := rfl
  exact ⟨hfull, complete_refines_minimal exFileFull exFullMesh hfull⟩

/-- C10: AddNeighborList applies the 1-based-to-0-based conversion (subtract
one) uniformly to every slot it fills, with no special case for padding: each
filled row holds exactly the file's entries minus one, so a padded slot
holding the file's sentinel s is stored as s-1, not as the allocation-time
missing-value marker. -/
theorem addNeighborList_uniform (f : NcFile) (name : String) (exp : ℕ)
    (tbl out : List (List ℤ)) (h : AddNeighborList f name exp tbl = some out) :
    out.length = tbl.length ∧
    ∀ e, e < tbl.length → e < (Load2DField f name).2.2 →
      out.getD e [] = (List.range (Load2DField f name).2.1).map
        (fun k => (Load2DField f name).1.getD (k * (Load2DField f name).2.2 + e) 0 - 1) := by
  unfold AddNeighborList at h
  dsimp only at h
  by_cases hc : (Load2DField f name).2.1 ≠ exp
  · rw [if_pos hc] at h
    cases h
  · rw [if_neg hc] at h
    injection h with h'
    subst h'
    constructor
    · simp
    · intro e he hnum
      have hlen : e < ((List.range tbl.length).map (fun elemIdx =>
          if elemIdx < (Load2DField f name).2.2 then
            (List.range (Load2DField f name).2.1).map
              (fun innerIdx => (Load2DField f name).1.getD
                (innerIdx * (Load2DField f name).2.2 + elemIdx) 0 - 1)
          else tbl.getD elemIdx [])).length := by
        simpa using he
      rw [List.getD_eq_getElem _ _ hlen, List.getElem_map, List.getElem_range, if_pos hnum]

/-- Example file holding one neighbor table with a padded slot (sentinel 0). -/
def exFileNbh : NcFile := ⟨[], [(("cells_of_vertex"), (2, 1, [0, 5]))]⟩

/-- C10 witness: the theorem instantiated at a concrete table; the sentinel 0
in the file is stored as -1 and the entry 5 as 4. -/
theorem addNeighborList_uniform_witness :
    AddNeighborList exFileNbh ("cells_of_vertex") 2 (AllocNbhTable 1 2) =
      some [[(-1 : ℤ), 4]] ∧
    (([[(-1 : ℤ), 4]] : List (List ℤ)).length = (AllocNbhTable 1 2).length ∧
     ∀ e, e < (AllocNbhTable 1 2).length →
       e < (Load2DField exFileNbh ("cells_of_vertex")).2.2 →
       ([[(-1 : ℤ), 4]] : List (List ℤ)).getD e [] =
         (List.range (Load2DField exFileNbh ("cells_of_vertex")).2.1).map
           (fun k => (Load2DField exFileNbh ("cells_of_vertex")).1.getD
             (k * (Load2DField exFileNbh ("cells_of_vertex")).2.2 + e) 0 - 1)) := by
  have hadd : AddNeighborList exFileNbh ("cells_of_vertex") 2 (AllocNbhTable 1 2) =
      some [[(-1 : ℤ), 4]] := by decide
  exact ⟨hadd, addNeighborList_uniform exFileNbh _ 2 _ _ hadd⟩

end AtlasVerif
